import Mathlib

/-!
Verification of the credential-scoped usage-cache and session-state subsystem
of the claude-dashboard status renderer.

The definitions below are a shallow embedding of the TypeScript source:
* `scripts/utils/hash.ts`            — `hashToken` (SHA-256 truncated to 16 hex chars)
* `scripts/utils/session.ts`         — `sanitizeSessionId`, `getSessionStartTime`,
                                       `cleanupExpiredSessions`
* `scripts/utils/api-client.ts`      — `isCacheValid`, `loadFileCache`, `saveFileCache`,
                                       `fetchUsageLimits`, `cleanupExpiredCache`
* the Gemini client                  — `tokenNeedsRefresh`, `refreshTokenInternal`,
                                       `refreshToken`, `saveCredentialsToFile`

Machine integers are modelled as `Nat`/`Int` with explicit reduction mod 2^32
where the source relies on 32-bit arithmetic (SHA-256); JavaScript millisecond
timestamps are modelled as `Int` and second-granularity ages as `Rat`
(`ageSeconds = (now - timestamp) / 1000`).  Asynchronous, concurrent code is
modelled as explicit transition systems over schedules.
-/

namespace ClaudeDashboard

/-! ## SHA-256 and `hashToken` (scripts/utils/hash.ts)

Node's `createHash('sha256').update(token).digest('hex').substring(0, 16)`:
the token is UTF-8 encoded, hashed with SHA-256, rendered as 64 lowercase hex
characters, and truncated to the first 16. -/

/-- Reduce to a 32-bit word. -/
def w32 (n : Nat) : Nat := n % 4294967296

/-- Rotate a 32-bit word right by `n`. -/
def rotr32 (n x : Nat) : Nat := w32 ((x >>> n) ||| (x <<< (32 - n)))

/-- SHA-256 Σ₀. -/
def bSigma0 (x : Nat) : Nat := (rotr32 2 x) ^^^ (rotr32 13 x) ^^^ (rotr32 22 x)

/-- SHA-256 Σ₁. -/
def bSigma1 (x : Nat) : Nat := (rotr32 6 x) ^^^ (rotr32 11 x) ^^^ (rotr32 25 x)

/-- SHA-256 σ₀. -/
def sSigma0 (x : Nat) : Nat := (rotr32 7 x) ^^^ (rotr32 18 x) ^^^ (x >>> 3)

/-- SHA-256 σ₁. -/
def sSigma1 (x : Nat) : Nat := (rotr32 17 x) ^^^ (rotr32 19 x) ^^^ (x >>> 10)

/-- SHA-256 Ch: `(x AND y) XOR (NOT x AND z)` on 32-bit words. -/
def shaCh (x y z : Nat) : Nat := (x &&& y) ^^^ ((x ^^^ 4294967295) &&& z)

/-- SHA-256 Maj. -/
def shaMaj (x y z : Nat) : Nat := (x &&& y) ^^^ (x &&& z) ^^^ (y &&& z)

/-- The 64 SHA-256 round constants (FIPS 180-4, written in decimal). -/
def shaK : List Nat :=
  [1116352408, 1899447441, 3049323471, 3921009573, 961987163, 1508970993,
   2453635748, 2870763221, 3624381080, 310598401, 607225278, 1426881987,
   1925078388, 2162078206, 2614888103, 3248222580, 3835390401, 4022224774,
   264347078, 604807628, 770255983, 1249150122, 1555081692, 1996064986,
   2554220882, 2821834349, 2952996808, 3210313671, 3336571891, 3584528711,
   113926993, 338241895, 666307205, 773529912, 1294757372, 1396182291,
   1695183700, 1986661051, 2177026350, 2456956037, 2730485921, 2820302411,
   3259730800, 3345764771, 3516065817, 3600352804, 4094571909, 275423344,
   430227734, 506948616, 659060556, 883997877, 958139571, 1322822218,
   1537002063, 1747873779, 1955562222, 2024104815, 2227730452, 2361852424,
   2428436474, 2756734187, 3204031479, 3329325298]

/-- SHA-256 working state: eight 32-bit words. -/
structure Sha256State where
  a : Nat
  b : Nat
  c : Nat
  d : Nat
  e : Nat
  f : Nat
  g : Nat
  h : Nat
deriving Repr, DecidableEq

/-- SHA-256 initial hash value. -/
def shaInit : Sha256State :=
  ⟨1779033703, 3144134277, 1013904242, 2773480762,
   1359893119, 2600822924, 528734635, 1541459225⟩

/-- One SHA-256 compression round, consuming a `(K, W)` pair. -/
def shaRound (st : Sha256State) (kw : Nat × Nat) : Sha256State :=
  let t1 := w32 (st.h + bSigma1 st.e + shaCh st.e st.f st.g + kw.1 + kw.2)
  let t2 := w32 (bSigma0 st.a + shaMaj st.a st.b st.c)
  ⟨w32 (t1 + t2), st.a, st.b, st.c, w32 (st.d + t1), st.e, st.f, st.g⟩

/-- Group bytes into big-endian 32-bit words. -/
def bytesToWords : List Nat → List Nat
  | b0 :: b1 :: b2 :: b3 :: rest =>
    (b0 * 16777216 + b1 * 65536 + b2 * 256 + b3) :: bytesToWords rest
  | _ => []

/-- Extend the 16-word message schedule by `k` further words. -/
def extendW : List Nat → Nat → List Nat
  | w, 0 => w
  | w, Nat.succ k =>
    extendW
      (w ++ [w32 (sSigma1 (w.getD (w.length - 2) 0) + w.getD (w.length - 7) 0 +
        sSigma0 (w.getD (w.length - 15) 0) + w.getD (w.length - 16) 0)]) k

/-- Process one 64-byte block. -/
def processBlock (st : Sha256State) (block : List Nat) : Sha256State :=
  let w := extendW (bytesToWords block) 48
  let r := (List.zip shaK w).foldl shaRound st
  ⟨w32 (st.a + r.a), w32 (st.b + r.b), w32 (st.c + r.c), w32 (st.d + r.d),
   w32 (st.e + r.e), w32 (st.f + r.f), w32 (st.g + r.g), w32 (st.h + r.h)⟩

/-- SHA-256 padding: `0x80`, zeros, then the 64-bit big-endian bit length. -/
def padMessage (msg : List Nat) : List Nat :=
  let bitLen := 8 * msg.length
  let zeros := (64 - ((msg.length + 9) % 64)) % 64
  msg ++ [128] ++ List.replicate zeros 0 ++
    [(bitLen >>> 56) % 256, (bitLen >>> 48) % 256, (bitLen >>> 40) % 256, (bitLen >>> 32) % 256,
     (bitLen >>> 24) % 256, (bitLen >>> 16) % 256, (bitLen >>> 8) % 256, bitLen % 256]

/-- Split a byte list into 64-byte chunks (`fuel` bounds the recursion depth;
any `fuel ≥ l.length` yields the full chunking). -/
def chunks64Aux : Nat → List Nat → List (List Nat)
  | 0, _ => []
  | _, [] => []
  | Nat.succ fuel, x :: rest => (x :: rest).take 64 :: chunks64Aux fuel ((x :: rest).drop 64)

/-- Split a byte list into 64-byte chunks. -/
def chunks64 (l : List Nat) : List (List Nat) := chunks64Aux l.length l

/-- Full SHA-256 over a byte list. -/
def sha256 (msg : List Nat) : Sha256State :=
  (chunks64 (padMessage msg)).foldl processBlock shaInit

/-- The sixteen lowercase hex digits. -/
def hexChars : List Char :=
  '0' :: '1' :: '2' :: '3' :: '4' :: '5' :: '6' :: '7' :: '8' :: '9' ::
    'a' :: 'b' :: 'c' :: 'd' :: 'e' :: 'f' :: []

/-- Hex digit for the low nibble of `n`. -/
def nibbleChar (n : Nat) : Char := hexChars.getD (n % 16) '0'

/-- Big-endian hex rendering of one 32-bit word (8 characters). -/
def wordHexChars (w : Nat) : List Char :=
  [nibbleChar (w >>> 28), nibbleChar (w >>> 24), nibbleChar (w >>> 20), nibbleChar (w >>> 16),
   nibbleChar (w >>> 12), nibbleChar (w >>> 8), nibbleChar (w >>> 4), nibbleChar w]

/-- The 64-character lowercase hex digest of SHA-256. -/
def sha256Hex (msg : List Nat) : List Char :=
  let s := sha256 msg
  wordHexChars s.a ++ wordHexChars s.b ++ wordHexChars s.c ++ wordHexChars s.d ++
  wordHexChars s.e ++ wordHexChars s.f ++ wordHexChars s.g ++ wordHexChars s.h

/-- A string made only of lowercase hex digits. -/
def isHexString (s : String) : Bool := s.data.all (fun c => decide (c ∈ hexChars))

/-- UTF-8 encoding of a single character (`Buffer.from(str, 'utf8')` semantics). -/
def utf8EncodeChar (c : Char) : List Nat :=
  let n := c.toNat
  if n < 128 then [n]
  else if n < 2048 then [192 ||| (n >>> 6), 128 ||| (n &&& 63)]
  else if n < 65536 then
    [224 ||| (n >>> 12), 128 ||| ((n >>> 6) &&& 63), 128 ||| (n &&& 63)]
  else
    [240 ||| (n >>> 18), 128 ||| ((n >>> 12) &&& 63), 128 ||| ((n >>> 6) &&& 63),
     128 ||| (n &&& 63)]

/-- UTF-8 encoding of a string. -/
def utf8Encode (s : String) : List Nat := (s.data.map utf8EncodeChar).flatten

/-- `hashToken` from scripts/utils/hash.ts:
`createHash('sha256').update(token).digest('hex').substring(0, HASH_LENGTH)`
with `HASH_LENGTH = 16`. -/
def hashToken (token : String) : String :=
  String.mk ((sha256Hex (utf8Encode token)).take 16)

/-! ## Session-id sanitization (session.ts) -/

/-- The allow-list of the regex `[^a-zA-Z0-9-_]`, as code-point ranges:
a character survives `sanitizeSessionId` exactly when this is `true`
(97-122 = `a`-`z`, 65-90 = `A`-`Z`, 48-57 = `0`-`9`, plus `-` and `_`). -/
def allowedSessionChar (c : Char) : Bool :=
  (97 ≤ c.toNat && c.toNat ≤ 122) || (65 ≤ c.toNat && c.toNat ≤ 90) ||
    (48 ≤ c.toNat && c.toNat ≤ 57) || c == '-' || c == '_'

/-- `sanitizeSessionId` from session.ts:
`sessionId.replace(/[^a-zA-Z0-9-_]/g, '')`. -/
def sanitizeSessionId (sessionId : String) : String :=
  String.mk (sessionId.data.filter allowedSessionChar)

/-- File name used for the session file: `${safeSessionId}.json`. -/
def sessionFileName (sessionId : String) : String :=
  sanitizeSessionId sessionId ++ ".json"

/-- The session file path `join(SESSION_DIR, name)`; with a separator-free
name, `path.join` is directory, slash, name. -/
def sessionFilePath (sessionDir sessionId : String) : String :=
  sessionDir ++ "/" ++ sessionFileName sessionId

/-- A file name that cannot escape its directory: non-empty, not a dot entry,
and free of path separators. -/
def safeFileName (name : String) : Bool :=
  name != "" && name != "." && name != ".." &&
    name.data.all (fun c => c != '/' && c != '\\')

/-! ## Cache entries and TTL validation (api-client.ts) -/

/-- `CacheEntry<T>`: `{ data: T, timestamp: epoch-milliseconds }`. -/
structure CacheEntry (α : Type) where
  data : α
  timestamp : Int
deriving Repr, DecidableEq

/-- `isCacheValid`: the entry for `tokenHash` exists and
`(Date.now() - cache.timestamp) / 1000 < ttlSeconds`. -/
def isCacheValid {α : Type} (usageCacheMap : String → Option (CacheEntry α))
    (tokenHash : String) (ttlSeconds : Rat) (now : Int) : Bool :=
  match usageCacheMap tokenHash with
  | none => false
  | some cache => decide (((now - cache.timestamp : Int) : Rat) / 1000 < ttlSeconds)

/-- `loadFileCache`: read the disk record for `tokenHash` (a missing or
unreadable file is `none`) and return its payload only while
`(Date.now() - content.timestamp) / 1000 < ttlSeconds`. -/
def loadFileCache {α : Type} (disk : String → Option (CacheEntry α))
    (tokenHash : String) (ttlSeconds : Rat) (now : Int) : Option α :=
  match disk tokenHash with
  | none => none
  | some content =>
    if ((now - content.timestamp : Int) : Rat) / 1000 < ttlSeconds then some content.data
    else none

/-! ## The usage-cache engine, sequential semantics (api-client.ts)

`fetchUsageLimits` is modelled as a pure function of the module state
(memory map, last token hash, cache directory contents, pending map) and of
the call's environment: the credential-resolution result, the call instant
`now` (ms), and the network oracle `net` giving the would-be outcome of
`fetchFromApi` (`some limits` for a normalized 2xx response, `none` for any
failure).  Payloads are generic in `α` as in `CacheEntry<T>`. -/

/-- Update a string-keyed map at one key (`Map.set`). -/
def mapUpdate {β : Type} (m : String → Option β) (k : String) (v : β) :
    String → Option β :=
  fun k' => if k' = k then some v else m k'

/-- Module-scoped state of api-client.ts. -/
structure FetchState (α : Type) where
  usageCacheMap : String → Option (CacheEntry α)
  lastTokenHash : Option String
  disk : String → Option (CacheEntry α)
  pendingRequests : String → Option (Option α)

/-- Steps 3-5 of `fetchUsageLimits`, reached after the memory tier misses:
disk tier (with promotion into memory), pending tier, network tier (which on
success updates memory and disk, as `fetchFromApi` does). -/
def fetchTiersBelowMemory {α : Type} (st1 : FetchState α) (tokenHash : String)
    (ttlSeconds : Rat) (now : Int) (net : Option α) : Option α × FetchState α :=
  match loadFileCache st1.disk tokenHash ttlSeconds now with
  | some fileCache =>
    (some fileCache,
     { st1 with usageCacheMap := mapUpdate st1.usageCacheMap tokenHash ⟨fileCache, now⟩ })
  | none =>
    match st1.pendingRequests tokenHash with
    | some pendingResult => (pendingResult, st1)
    | none =>
      match net with
      | some limits =>
        (some limits,
         { st1 with
           usageCacheMap := mapUpdate st1.usageCacheMap tokenHash ⟨limits, now⟩,
           disk := mapUpdate st1.disk tokenHash ⟨limits, now⟩ })
      | none => (none, st1)

/-- `fetchUsageLimits(ttlSeconds)`, one sequential call.  Returns the result
and the module state after the call.  A `pendingRequests` entry is modelled
as the settled value the awaited promise will deliver; the set-then-delete of
a fresh request leaves the map as it was. -/
def fetchUsageLimits {α : Type} (st : FetchState α) (token : Option String)
    (ttlSeconds : Rat) (now : Int) (net : Option α) : Option α × FetchState α :=
  match token with
  | none =>
    match st.lastTokenHash with
    | none => (none, st)
    | some lastHash =>
      match st.usageCacheMap lastHash with
      | some cached => (some cached.data, st)
      | none =>
        match loadFileCache st.disk lastHash (ttlSeconds * 10) now with
        | some fileCache => (some fileCache, st)
        | none => (none, st)
  | some tok =>
    let tokenHash := hashToken tok
    let st1 := { st with lastTokenHash := some tokenHash }
    if isCacheValid st1.usageCacheMap tokenHash ttlSeconds now then
      match st1.usageCacheMap tokenHash with
      | some cached => (some cached.data, st1)
      | none => fetchTiersBelowMemory st1 tokenHash ttlSeconds now net
    else fetchTiersBelowMemory st1 tokenHash ttlSeconds now net

/-! ## Disk-cache record format and permissions (api-client.ts, bundled build)

`ensureCacheDir` creates `CACHE_DIR` with `mode: 448`; `saveFileCache` writes
`JSON.stringify({ data, timestamp: Date.now() })` to
`path.join(CACHE_DIR, 'cache-' + tokenHash + '.json')` with `mode: 384`. -/

/-- `CACHE_DIR = path.join(os.homedir(), '.cache', 'claude-dashboard')`. -/
def cacheDir (home : String) : String := home ++ "/.cache/claude-dashboard"

/-- `getCacheFilePath(tokenHash)`. -/
def getCacheFilePath (home tokenHash : String) : String :=
  cacheDir home ++ "/cache-" ++ tokenHash ++ ".json"

/-- The `mode` option passed to `mkdir` in `ensureCacheDir` (`448`). -/
def ensureCacheDirMode : Nat := 448

/-- A single write performed by `saveFileCache`: target path, serialized
record, and the `mode` option of `writeFile`. -/
structure CacheFileWrite (α : Type) where
  path : String
  content : CacheEntry α
  mode : Nat
deriving Repr, DecidableEq

/-- The write `saveFileCache(tokenHash, data)` performs at instant `now`. -/
def saveFileCache {α : Type} (home tokenHash : String) (data : α) (now : Int) :
    CacheFileWrite α :=
  { path := getCacheFilePath home tokenHash, content := ⟨data, now⟩, mode := 384 }

/-! ## Disk cleanup (`cleanupExpiredCache`, api-client.ts, bundled build)

The cache directory is a listing of `(name, statResult)` pairs where
`statResult` is `some mtimeMs`, or `none` when `stat` fails for that file
(the per-file `catch` then skips it).  A failed `readdir` is the `none`
directory.  The function returns the new `lastCleanupTime`, the directory
after any deletions, and whether a disk scan was performed. -/

/-- `CLEANUP_INTERVAL_MS = 36e5` (one hour). -/
def CLEANUP_INTERVAL_MS : Int := 3600000

/-- `CACHE_MAX_AGE_SECONDS = 3600`. -/
def CACHE_MAX_AGE_SECONDS : Rat := 3600

/-- Does one cleanup iteration delete this directory entry?  Requires the
`cache-*.json` naming pattern (`file.startsWith('cache-') &&
file.endsWith('.json')`, expressed on the character lists), a successful
`stat`, and `(now - mtimeMs) / 1000 > CACHE_MAX_AGE_SECONDS`. -/
def cacheCleanupDeletes (now : Int) (file : String × Option Int) : Bool :=
  "cache-".data.isPrefixOf file.1.data && ".json".data.isSuffixOf file.1.data &&
    match file.2 with
    | none => false
    | some mtimeMs => decide (((now - mtimeMs : Int) : Rat) / 1000 > CACHE_MAX_AGE_SECONDS)

/-- `cleanupExpiredCache()`: throttled by `lastCleanupTime`, best-effort,
never throws.  Result: `(lastCleanupTime', directory', scanned)`. -/
def cleanupExpiredCache (lastCleanupTime now : Int)
    (dir : Option (List (String × Option Int))) :
    Int × Option (List (String × Option Int)) × Bool :=
  if now - lastCleanupTime < CLEANUP_INTERVAL_MS then
    (lastCleanupTime, dir, false)
  else
    match dir with
    | none => (now, none, true)
    | some files => (now, some (files.filter (fun f => !cacheCleanupDeletes now f)), true)

/-! ## Exclusive session creation (`getOrCreateSessionStartTimeImpl`, session.ts)

Two (or more) processes race to initialize the same session id.  The shared
state is the session file as other processes can observe it.  Each process
executes `getOrCreateSessionStartTimeImpl` with one atomic step per `await`
of the source: the initial `readFile`, the exclusive `open(sessionFile,
'wx')`, the content `writeFile` on the returned handle, and the re-read
after `EEXIST`.  Crucially, `open('wx')` and the content write are separate
awaits: between them the file exists but is empty, and a concurrent reader
of that empty file gets a `JSON.parse` failure, not `ENOENT`. -/

/-- Observable content of the session file: absent; created by
`open(sessionFile, 'wx')` but not yet written (reads as `""`, which makes
`JSON.parse` throw); or holding a serialized `{ startTime: v }` record. -/
inductive SessFile where
  | absent : SessFile
  | createdEmpty : SessFile
  | written (v : Int) : SessFile
deriving Repr, DecidableEq

/-- Program counter of one process inside `getOrCreateSessionStartTimeImpl`.
In `done r adopted`, `r` is the returned start time and `adopted` records
whether it came from the session file (initial read, post-`EEXIST` re-read,
or the creator's own persisted write) rather than from the parse-failure
fallback to the local clock. -/
inductive SessPhase where
  /-- about to `readFile(sessionFile)` -/
  | start : SessPhase
  /-- the read threw (`ENOENT`, or a parse failure on the empty file);
  about to `open(sessionFile, 'wx')` -/
  | atCreate : SessPhase
  /-- `open('wx')` succeeded; about to `fileHandle.writeFile(...)` -/
  | writing : SessPhase
  /-- `open('wx')` failed with `EEXIST`; about to re-read the file -/
  | atReread : SessPhase
  /-- returned `r` (and cached it in `sessionCache`) -/
  | done (r : Int) (adopted : Bool) : SessPhase
deriving Repr, DecidableEq

/-- One racing process: its local `Date.now()` reading `n` and its pc. -/
structure SessProc where
  n : Int
  pc : SessPhase
deriving Repr, DecidableEq

/-- The racing system: the session file content and the processes. -/
structure SessSystem where
  file : SessFile
  procs : List SessProc
deriving Repr, DecidableEq

/-- One atomic step of process `p` against file content `file`:
returns the new file content and the new process state. -/
def sessStepProc (file : SessFile) (p : SessProc) : SessFile × SessProc :=
  match p.pc with
  | .start =>
    match file with
    | .written t => (file, { p with pc := .done t true })
    | _ => (file, { p with pc := .atCreate })
  | .atCreate =>
    match file with
    | .absent => (.createdEmpty, { p with pc := .writing })
    | _ => (file, { p with pc := .atReread })
  | .writing => (.written p.n, { p with pc := .done p.n true })
  | .atReread =>
    match file with
    | .written t => (file, { p with pc := .done t true })
    | _ => (file, { p with pc := .done p.n false })
  | .done _ _ => (file, p)

/-- Scheduler step: let process `i` take one atomic step
(no-op for an out-of-range index). -/
def sessStep (s : SessSystem) (i : Nat) : SessSystem :=
  match s.procs[i]? with
  | none => s
  | some p =>
    let fp := sessStepProc s.file p
    ⟨fp.1, s.procs.set i fp.2⟩

/-- Run a schedule (list of process indices) from a system state. -/
def sessRun (s : SessSystem) (sched : List Nat) : SessSystem :=
  sched.foldl sessStep s

/-- Initial system for local clock readings `ns`, with no existing file. -/
def sessInit (ns : List Int) : SessSystem :=
  ⟨.absent, ns.map (fun n => ⟨n, .start⟩)⟩

/-! ## Single-flight request de-duplication (`fetchUsageLimits` steps 4-5)

Within one process (cooperative JS scheduling), several widgets call
`fetchUsageLimits` for the same token hash.  Each caller executes, for one
fixed key, the code after the cache misses: check `pendingRequests`; if an
entry exists, await it; else create `fetchFromApi(...)`, register it, await
it, and in `finally` delete the registration.  A request id is its index in
the order of creation; a request resolves once, to `some limits` or to
`null` (`fetchFromApi` never rejects), modelled as `v : Option α`. -/

/-- Program counter of one `fetchUsageLimits` caller past the cache tiers.
`owner` marks the caller that created (and will unregister) the request. -/
inductive SFCaller (α : Type) where
  /-- about to check `pendingRequests` -/
  | start : SFCaller α
  /-- awaiting request `r` -/
  | waiting (r : Nat) (owner : Bool) : SFCaller α
  /-- returned `v`, obtained from request `r` -/
  | done (r : Nat) (owner : Bool) (v : Option α) : SFCaller α
deriving Repr, DecidableEq

/-- Per-key single-flight state: the callers, the `pendingRequests` entry for
this key, and the requests created so far (`none` = still in flight,
`some v` = settled with `v`).  `requests.length` counts network calls. -/
structure SFState (α : Type) where
  callers : List (SFCaller α)
  pending : Option Nat
  requests : List (Option (Option α))
deriving Repr, DecidableEq

/-- Events: a caller takes a step (runs to its next `await`), or an
in-flight network request settles with value `v`. -/
inductive SFEvent (α : Type) where
  | caller (i : Nat) : SFEvent α
  | settle (r : Nat) (v : Option α) : SFEvent α
deriving Repr, DecidableEq

/-- One transition of the single-flight system. -/
def sfStep {α : Type} (s : SFState α) (ev : SFEvent α) : SFState α :=
  match ev with
  | .settle r v =>
    match s.requests[r]? with
    | some none => { s with requests := s.requests.set r (some v) }
    | _ => s
  | .caller i =>
    match s.callers[i]? with
    | some .start =>
      match s.pending with
      | some r => { s with callers := s.callers.set i (.waiting r false) }
      | none =>
        { callers := s.callers.set i (.waiting s.requests.length true),
          pending := some s.requests.length,
          requests := s.requests ++ [none] }
    | some (.waiting r owner) =>
      match s.requests[r]? with
      | some (some v) =>
        { callers := s.callers.set i (.done r owner v),
          pending := if owner then none else s.pending,
          requests := s.requests }
      | _ => s
    | _ => s

/-- Run a schedule of events. -/
def sfRun {α : Type} (s : SFState α) (sched : List (SFEvent α)) : SFState α :=
  sched.foldl sfStep s

/-- Initial single-flight state with `k` callers, none started. -/
def sfInit (α : Type) (k : Nat) : SFState α :=
  ⟨List.replicate k .start, none, []⟩

/-- A request is in flight when created but not yet settled. -/
def sfInFlight {α : Type} (s : SFState α) (r : Nat) : Prop :=
  s.requests[r]? = some none

/-! ## Silent token refresh (Gemini client)

`getValidCredentials` refreshes when `tokenNeedsRefresh`; the refresh
exchanges the refresh token at the Google token endpoint, persists the new
credential into `oauth_creds.json` preserving unrelated fields
(`{...existingData, access_token, refresh_token, expiry_date, token_type,
scope}`), clears the module's `cachedCredentials`, and is de-duplicated per
token hash through `pendingRefreshRequests` with a `.finally` that removes
the registration when the refresh settles. -/

/-- `GeminiCredentials` (optional fields are `undefined`-able in the source). -/
structure GeminiCredentials where
  accessToken : String
  refreshToken : Option String
  expiryDate : Option Int
deriving Repr, DecidableEq

/-- `TOKEN_REFRESH_BUFFER_MS = 5 * 60 * 1000`. -/
def TOKEN_REFRESH_BUFFER_MS : Int := 300000

/-- `tokenNeedsRefresh`: no expiry info means assume valid; otherwise refresh
when `expiryDate < Date.now() + TOKEN_REFRESH_BUFFER_MS`. -/
def tokenNeedsRefresh (credentials : GeminiCredentials) (now : Int) : Bool :=
  match credentials.expiryDate with
  | none => false
  | some expiryDate => decide (expiryDate < now + TOKEN_REFRESH_BUFFER_MS)

/-- JSON scalar values as far as the credential file is concerned. -/
inductive JVal where
  | str (s : String)
  | num (n : Int)
  | bool (b : Bool)
  | null
deriving Repr, DecidableEq

/-- JavaScript falsiness of a JSON scalar. -/
def jsFalsy : JVal → Bool
  | .str s => s == ""
  | .num n => n == 0
  | .bool b => !b
  | .null => true

/-- JavaScript `a || b` over possibly-absent JSON values. -/
def jsOr (a b : Option JVal) : Option JVal :=
  match a with
  | none => b
  | some v => if jsFalsy v then b else some v

/-- JavaScript `a || b` where `a` is a possibly-absent string and `b` a
possibly-absent fallback string. -/
def jsOrStr (a b : Option String) : Option String :=
  match a with
  | none => b
  | some s => if s == "" then b else some s

/-- The fields of the token-endpoint response body the client reads. -/
structure RefreshResponse where
  access_token : Option String
  refresh_token : Option String
  expires_in : Int
  token_type : Option JVal
  scope : Option JVal
deriving Repr, DecidableEq

/-- A JSON object, as a key-to-value map (`none` = key absent). -/
def JObj : Type := String → Option JVal

/-- `saveCredentialsToFile`: spread the existing file then overwrite the five
token fields (a field set to `undefined` disappears from the serialized
file). -/
def saveCredentialsToFile (existingData : JObj) (credentials : GeminiCredentials)
    (rawResponse : RefreshResponse) : JObj :=
  fun k =>
    if k = "access_token" then some (.str credentials.accessToken)
    else if k = "refresh_token" then credentials.refreshToken.map .str
    else if k = "expiry_date" then credentials.expiryDate.map .num
    else if k = "token_type" then jsOr rawResponse.token_type (some (.str "Bearer"))
    else if k = "scope" then jsOr rawResponse.scope (existingData "scope")
    else existingData k

/-- Module state touched by a refresh: the credential file and the
mtime-tracked in-memory copy `cachedCredentials`. -/
structure RefreshEnv where
  file : JObj
  cachedCredentials : Option (GeminiCredentials × Int)

/-- `refreshTokenInternal`: `resp` is the network outcome (`none` for a
non-2xx response or any error).  On success the new credentials are built,
persisted, and `cachedCredentials` is cleared to force a reload. -/
def refreshTokenInternal (credentials : GeminiCredentials) (now : Int)
    (resp : Option RefreshResponse) (env : RefreshEnv) :
    Option GeminiCredentials × RefreshEnv :=
  match resp with
  | none => (none, env)
  | some data =>
    match data.access_token with
    | none => (none, env)
    | some tk =>
      if tk = "" then (none, env)
      else
        let newCredentials : GeminiCredentials :=
          { accessToken := tk,
            refreshToken := jsOrStr data.refresh_token credentials.refreshToken,
            expiryDate := some (now + data.expires_in * 1000) }
        (some newCredentials,
         { file := saveCredentialsToFile env.file newCredentials data,
           cachedCredentials := none })

/-- `refreshToken` without the de-duplication layer (`refreshTokenInternal`
guarded by the refresh-token presence check). -/
def refreshTokenSeq (credentials : GeminiCredentials) (now : Int)
    (resp : Option RefreshResponse) (env : RefreshEnv) :
    Option GeminiCredentials × RefreshEnv :=
  match credentials.refreshToken with
  | none => (none, env)
  | some _ => refreshTokenInternal credentials now resp env

/-- `getValidCredentials`: return the resolved credentials unchanged unless
they need a refresh, in which case the refresh outcome (or `none` on refresh
failure) is returned. -/
def getValidCredentials (resolved : Option GeminiCredentials) (now : Int)
    (resp : Option RefreshResponse) (env : RefreshEnv) :
    Option GeminiCredentials × RefreshEnv :=
  match resolved with
  | none => (none, env)
  | some credentials =>
    if tokenNeedsRefresh credentials now then refreshTokenSeq credentials now resp env
    else (some credentials, env)

/-! ### Refresh de-duplication (`pendingRefreshRequests`)

Same single-flight shape as the usage fetch, except that the registration is
removed by a `.finally` attached to the promise itself, i.e. at the moment
the refresh settles. -/

/-- Program counter of one `refreshToken` caller for a fixed token hash. -/
inductive RefCaller (α : Type) where
  | start : RefCaller α
  | waiting (r : Nat) : RefCaller α
  | done (r : Nat) (v : Option α) : RefCaller α
deriving Repr, DecidableEq

/-- Per-token-hash refresh de-duplication state. -/
structure RefState (α : Type) where
  callers : List (RefCaller α)
  pending : Option Nat
  requests : List (Option (Option α))
deriving Repr, DecidableEq

/-- One transition: a caller runs to its next suspension, or an in-flight
refresh settles (its `.finally` then deletes the registration). -/
def refStep {α : Type} (s : RefState α) (ev : SFEvent α) : RefState α :=
  match ev with
  | .settle r v =>
    match s.requests[r]? with
    | some none => { s with requests := s.requests.set r (some v), pending := none }
    | _ => s
  | .caller i =>
    match s.callers[i]? with
    | some .start =>
      match s.pending with
      | some r => { s with callers := s.callers.set i (.waiting r) }
      | none =>
        { callers := s.callers.set i (.waiting s.requests.length),
          pending := some s.requests.length,
          requests := s.requests ++ [none] }
    | some (.waiting r) =>
      match s.requests[r]? with
      | some (some v) => { s with callers := s.callers.set i (.done r v) }
      | _ => s
    | _ => s

/-- Run a schedule of refresh events. -/
def refRun {α : Type} (s : RefState α) (sched : List (SFEvent α)) : RefState α :=
  sched.foldl refStep s

/-- Initial refresh de-duplication state with `k` callers. -/
def refInit (α : Type) (k : Nat) : RefState α :=
  ⟨List.replicate k .start, none, []⟩

/-! ## Invariants of the transition systems -/

/-- Reachability invariant of the session race: while the file is absent
every process is still before its exclusive create; a process between
`open('wx')` and the content write is unique and sees the created-but-empty
file; a completed call flagged `adopted` returned exactly the persisted
start time; a completed call flagged as fallback returned its own local
clock; and the persisted value is one process's local clock. -/
structure SessInvariant (s : SessSystem) : Prop where
  allEarly : s.file = SessFile.absent → ∀ p ∈ s.procs,
    p.pc = SessPhase.start ∨ p.pc = SessPhase.atCreate
  writerPending : ∀ (i : Nat) (p : SessProc), s.procs[i]? = some p →
    p.pc = SessPhase.writing → s.file = SessFile.createdEmpty
  writerUnique : ∀ (i j : Nat) (p q : SessProc), s.procs[i]? = some p →
    s.procs[j]? = some q → p.pc = SessPhase.writing → q.pc = SessPhase.writing → i = j
  adoptedFile : ∀ p ∈ s.procs, ∀ r, p.pc = SessPhase.done r true →
    s.file = SessFile.written r
  fallbackOwn : ∀ p ∈ s.procs, ∀ r, p.pc = SessPhase.done r false → r = p.n
  fileFromProc : ∀ v, s.file = SessFile.written v → v ∈ s.procs.map SessProc.n

/-- Reachability invariant of the single-flight system. -/
structure SFInvariant {α : Type} (s : SFState α) : Prop where
  inflightPending : ∀ r, s.requests[r]? = some none → s.pending = some r
  pendingLt : ∀ r, s.pending = some r → r < s.requests.length
  waitingLt : ∀ (i r : Nat) (ow : Bool),
    s.callers[i]? = some (SFCaller.waiting r ow) → r < s.requests.length
  doneLt : ∀ (i r : Nat) (ow : Bool) (v : Option α),
    s.callers[i]? = some (SFCaller.done r ow v) → r < s.requests.length
  doneSettled : ∀ (i r : Nat) (ow : Bool) (v : Option α),
    s.callers[i]? = some (SFCaller.done r ow v) → s.requests[r]? = some (some v)
  doneOwnerCleared : ∀ (i r : Nat) (v : Option α),
    s.callers[i]? = some (SFCaller.done r true v) → s.pending ≠ some r
  ownerPending : ∀ (i r : Nat),
    s.callers[i]? = some (SFCaller.waiting r true) → s.pending = some r
  ownerUnique : ∀ (i j r r' : Nat), s.callers[i]? = some (SFCaller.waiting r true) →
    s.callers[j]? = some (SFCaller.waiting r' true) → i = j

/-- Reachability invariant of the refresh de-duplication system. -/
structure RefInvariant {α : Type} (s : RefState α) : Prop where
  inflightPending : ∀ r, s.requests[r]? = some none → s.pending = some r
  pendingLt : ∀ r, s.pending = some r → r < s.requests.length
  waitingLt : ∀ (i r : Nat),
    s.callers[i]? = some (RefCaller.waiting r) → r < s.requests.length
  doneLt : ∀ (i r : Nat) (v : Option α),
    s.callers[i]? = some (RefCaller.done r v) → r < s.requests.length
  doneSettled : ∀ (i r : Nat) (v : Option α),
    s.callers[i]? = some (RefCaller.done r v) → s.requests[r]? = some (some v)

/-! ## Helper lemmas -/

/-- `age / 1000 < ttl` in seconds is `age < ttl * 1000` in milliseconds. -/
theorem age_div_lt_iff (x : Int) (t : Rat) :
    ((x : Rat) / 1000 < t) ↔ ((x : Rat) < t * 1000) := by
  rw [div_lt_iff₀ (by norm_num : (0 : Rat) < 1000)]

/-- String concatenation concatenates the character lists. -/
theorem string_data_append (a b : String) : (a ++ b).data = a.data ++ b.data := by
  cases a; cases b; rfl

/-- Characters on the sanitizer allow-list are not path separators. -/
theorem allowedSessionChar_safe {c : Char} (h : allowedSessionChar c = true) :
    c ≠ '/' ∧ c ≠ '\\' := by
  simp only [allowedSessionChar, Bool.or_eq_true, Bool.and_eq_true, decide_eq_true_eq,
    beq_iff_eq] at h
  rcases h with (((h | h) | h) | h) | h
  · exact ⟨fun hc => absurd (hc ▸ h) (by decide), fun hc => absurd (hc ▸ h) (by decide)⟩
  · exact ⟨fun hc => absurd (hc ▸ h) (by decide), fun hc => absurd (hc ▸ h) (by decide)⟩
  · exact ⟨fun hc => absurd (hc ▸ h) (by decide), fun hc => absurd (hc ▸ h) (by decide)⟩
  · subst h; exact ⟨by decide, by decide⟩
  · subst h; exact ⟨by decide, by decide⟩

/-! ## C4: TTL validity is strict `age < ttl` -/

/-- C4.  A cache entry (memory or disk) is valid iff strictly younger than
`ttlSeconds`: `isCacheValid` and `loadFileCache` accept exactly when
`(now - timestamp) < ttl * 1000` (ms); an entry whose age is `≥ ttl` is a
miss, and `fetchUsageLimits` then falls through to a fresh network fetch
(when the lower tiers also miss), while a strictly younger entry is returned
without consulting the network. -/
theorem claim_C4 {α : Type} (m disk : String → Option (CacheEntry α)) (key : String)
    (ttl : Rat) (now : Int) (entry : CacheEntry α) :
    (m key = some entry →
      (isCacheValid m key ttl now = true ↔ ((now - entry.timestamp : Int) : Rat) < ttl * 1000)) ∧
    (disk key = some entry →
      (loadFileCache disk key ttl now = some entry.data ↔
        ((now - entry.timestamp : Int) : Rat) < ttl * 1000)) ∧
    (∀ (st : FetchState α) (tok : String) (net : Option α),
      st.usageCacheMap (hashToken tok) = some entry →
      ttl * 1000 ≤ ((now - entry.timestamp : Int) : Rat) →
      loadFileCache st.disk (hashToken tok) ttl now = none →
      st.pendingRequests (hashToken tok) = none →
      (fetchUsageLimits st (some tok) ttl now net).1 = net) ∧
    (∀ (st : FetchState α) (tok : String) (net : Option α),
      st.usageCacheMap (hashToken tok) = some entry →
      ((now - entry.timestamp : Int) : Rat) < ttl * 1000 →
      fetchUsageLimits st (some tok) ttl now net =
        (some entry.data, { st with lastTokenHash := some (hashToken tok) })) := by
  have hval : ∀ (mm : String → Option (CacheEntry α)), mm key = some entry →
      (isCacheValid mm key ttl now = true ↔
        ((now - entry.timestamp : Int) : Rat) < ttl * 1000) := by
    intro mm hm
    simp only [isCacheValid, hm, decide_eq_true_eq]
    exact age_div_lt_iff _ _
  refine ⟨hval m, ?_, ?_, ?_⟩
  · intro hd
    simp only [loadFileCache, hd]
    by_cases hlt : ((now - entry.timestamp : Int) : Rat) / 1000 < ttl
    · rw [if_pos hlt]
      exact ⟨fun _ => (age_div_lt_iff _ _).mp hlt, fun _ => rfl⟩
    · rw [if_neg hlt]
      constructor
      · intro h; cases h
      · intro h; exact absurd ((age_div_lt_iff _ _).mpr h) hlt
  · intro st tok net hm hage hdisk hpend
    have hvalid : isCacheValid st.usageCacheMap (hashToken tok) ttl now = false := by
      simp only [isCacheValid, hm, decide_eq_false_iff_not]
      rw [age_div_lt_iff]
      exact not_lt.mpr hage
    simp only [fetchUsageLimits, hvalid, Bool.false_eq_true, if_false,
      fetchTiersBelowMemory, hdisk, hpend]
    cases net <;> rfl
  · intro st tok net hm hage
    have hvalid : isCacheValid st.usageCacheMap (hashToken tok) ttl now = true := by
      simp only [isCacheValid, hm, decide_eq_true_eq]
      exact (age_div_lt_iff _ _).mpr hage
    simp only [fetchUsageLimits, hvalid, if_true, hm]

/-- Witness for C4: a 1-second-old entry under a 60-second TTL is served
from memory; the state only records the new last token hash. -/
theorem claim_C4_witness :
    fetchUsageLimits
        (⟨fun _ => some ⟨7, 0⟩, none, fun _ => none, fun _ => none⟩ : FetchState Nat)
        (some "tok") 60 1000 (some 5) =
      (some 7,
       { (⟨fun _ => some ⟨7, 0⟩, none, fun _ => none, fun _ => none⟩ : FetchState Nat) with
         lastTokenHash := some (hashToken "tok") }) :=
  (claim_C4 (fun _ => some ⟨7, 0⟩) (fun _ => none) "k" 60 1000 ⟨7, 0⟩).2.2.2
    ⟨fun _ => some ⟨7, 0⟩, none, fun _ => none, fun _ => none⟩ "tok" (some 5) rfl
    (by norm_num)

/-! ## C5: session-id sanitization prevents path traversal -/

/-- C5.  Every character surviving `sanitizeSessionId` is on the
alphanumeric/hyphen/underscore allow-list, so the session file name
`<sanitized>.json` is a safe single path component (non-empty, not a dot
entry, no separators) and the session file stays inside the session
directory; in particular `"../../etc/passwd"` sanitizes to `"etcpasswd"`. -/
theorem claim_C5 (sessionId : String) :
    (sanitizeSessionId sessionId).data.all allowedSessionChar = true ∧
    safeFileName (sessionFileName sessionId) = true ∧
    sanitizeSessionId "../../etc/passwd" = "etcpasswd" := by
  have hall : (sanitizeSessionId sessionId).data.all allowedSessionChar = true := by
    rw [List.all_eq_true]
    intro c hc
    exact (List.mem_filter.mp hc).2
  refine ⟨hall, ?_, by decide⟩
  have hdata : (sessionFileName sessionId).data =
      (sanitizeSessionId sessionId).data ++ ('.' :: 'j' :: 's' :: 'o' :: 'n' :: []) := by
    rw [sessionFileName, string_data_append]
  simp only [safeFileName, Bool.and_eq_true, bne_iff_ne, ne_eq]
  refine ⟨⟨⟨?_, ?_⟩, ?_⟩, ?_⟩
  · intro h
    have hd : (sanitizeSessionId sessionId).data ++ ('.' :: 'j' :: 's' :: 'o' :: 'n' :: []) =
        [] := hdata ▸ congrArg String.data h
    simp at hd
  · intro h
    have hd : (sanitizeSessionId sessionId).data ++ ('.' :: 'j' :: 's' :: 'o' :: 'n' :: []) =
        ['.'] := hdata ▸ congrArg String.data h
    have hl := congrArg List.length hd
    simp [List.length_append] at hl
  · intro h
    have hd : (sanitizeSessionId sessionId).data ++ ('.' :: 'j' :: 's' :: 'o' :: 'n' :: []) =
        ['.', '.'] := hdata ▸ congrArg String.data h
    have hl := congrArg List.length hd
    simp [List.length_append] at hl
  · rw [List.all_eq_true]
    intro c hc
    rw [hdata] at hc
    rcases List.mem_append.mp hc with hc | hc
    · have hc2 := (List.mem_filter.mp hc).2
      obtain ⟨h1, h2⟩ := allowedSessionChar_safe hc2
      simp [h1, h2]
    · fin_cases hc <;> decide

/-! ## C3: degraded fallback when credentials are unavailable -/

/-- C3.  When credential resolution yields no token, `fetchUsageLimits`
serves the last known fingerprint's cached value — memory first
(unconditionally), then disk with the extended TTL `ttlSeconds * 10` — and
returns `none` exactly when no fingerprint was ever recorded or neither tier
holds a value for it.  The module state is unchanged in every branch. -/
theorem claim_C3 {α : Type} (st : FetchState α) (ttl : Rat) (now : Int) (net : Option α) :
    (st.lastTokenHash = none → fetchUsageLimits st none ttl now net = (none, st)) ∧
    (∀ lastHash entry, st.lastTokenHash = some lastHash →
      st.usageCacheMap lastHash = some entry →
      fetchUsageLimits st none ttl now net = (some entry.data, st)) ∧
    (∀ lastHash d, st.lastTokenHash = some lastHash →
      st.usageCacheMap lastHash = none →
      loadFileCache st.disk lastHash (ttl * 10) now = some d →
      fetchUsageLimits st none ttl now net = (some d, st)) ∧
    (∀ lastHash, st.lastTokenHash = some lastHash →
      st.usageCacheMap lastHash = none →
      loadFileCache st.disk lastHash (ttl * 10) now = none →
      fetchUsageLimits st none ttl now net = (none, st)) := by
  refine ⟨?_, ?_, ?_, ?_⟩
  · intro hlast
    simp only [fetchUsageLimits, hlast]
  · intro lastHash entry hlast hmem
    simp only [fetchUsageLimits, hlast, hmem]
  · intro lastHash d hlast hmem hfile
    simp only [fetchUsageLimits, hlast, hmem, hfile]
  · intro lastHash hlast hmem hfile
    simp only [fetchUsageLimits, hlast, hmem, hfile]

/-- Witness for C3: with no resolvable token, a remembered fingerprint, an
empty memory tier, and a 500-second-old disk record, a call with
`ttlSeconds = 60` still serves the disk value through the extended TTL
(`500 < 600`). -/
theorem claim_C3_witness :
    fetchUsageLimits
        (⟨fun _ => none, some "fp", fun _ => some ⟨9, 0⟩, fun _ => none⟩ : FetchState Nat)
        none 60 500000 (some 3) =
      (some 9,
       (⟨fun _ => none, some "fp", fun _ => some ⟨9, 0⟩, fun _ => none⟩ : FetchState Nat)) :=
  (claim_C3 ⟨fun _ => none, some "fp", fun _ => some ⟨9, 0⟩, fun _ => none⟩
      60 500000 (some 3)).2.2.1 "fp" 9 rfl rfl
    (by simp only [loadFileCache]; norm_num)

/-! ## C10: disk-to-memory promotion restamps the entry -/

/-- C10.  When the memory tier misses but the disk record is within
`ttlSeconds`, `fetchUsageLimits` promotes it into memory with
`timestamp := Date.now()` (the promotion instant), not the disk record's
own timestamp; the promoted entry then satisfies `isCacheValid` until
`ttlSeconds` past the promotion instant, which is strictly less than
`2 * ttlSeconds` past the original fetch instant. -/
theorem claim_C10 {α : Type} (st : FetchState α) (tok : String) (ttl : Rat) (now : Int)
    (net : Option α) (entry : CacheEntry α)
    (hmem : isCacheValid st.usageCacheMap (hashToken tok) ttl now = false)
    (hdisk : st.disk (hashToken tok) = some entry)
    (hfresh : ((now - entry.timestamp : Int) : Rat) < ttl * 1000) :
    (fetchUsageLimits st (some tok) ttl now net).1 = some entry.data ∧
    (fetchUsageLimits st (some tok) ttl now net).2.usageCacheMap (hashToken tok) =
      some ⟨entry.data, now⟩ ∧
    (∀ t2 : Int, ((t2 - now : Int) : Rat) < ttl * 1000 →
      isCacheValid (fetchUsageLimits st (some tok) ttl now net).2.usageCacheMap
        (hashToken tok) ttl t2 = true) ∧
    (∀ t2 : Int, ((t2 - now : Int) : Rat) < ttl * 1000 →
      ((t2 - entry.timestamp : Int) : Rat) < 2 * (ttl * 1000)) := by
  have hload : loadFileCache st.disk (hashToken tok) ttl now = some entry.data := by
    simp only [loadFileCache, hdisk]
    rw [if_pos ((age_div_lt_iff _ _).mpr hfresh)]
  have hrun : fetchUsageLimits st (some tok) ttl now net =
      (some entry.data,
       { st with
         lastTokenHash := some (hashToken tok),
         usageCacheMap :=
           mapUpdate st.usageCacheMap (hashToken tok) ⟨entry.data, now⟩ }) := by
    simp only [fetchUsageLimits, hmem, Bool.false_eq_true, if_false,
      fetchTiersBelowMemory, hload]
  refine ⟨by rw [hrun], by rw [hrun]; simp [mapUpdate], ?_, ?_⟩
  · intro t2 ht2
    rw [hrun]
    have hup : mapUpdate st.usageCacheMap (hashToken tok) ⟨entry.data, now⟩ (hashToken tok) =
        some ⟨entry.data, now⟩ := by simp [mapUpdate]
    simp only [isCacheValid, hup, decide_eq_true_eq]
    exact (age_div_lt_iff _ _).mpr ht2
  · intro t2 ht2
    have hsplit : ((t2 - entry.timestamp : Int) : Rat) =
        ((t2 - now : Int) : Rat) + ((now - entry.timestamp : Int) : Rat) := by
      push_cast
      ring
    rw [hsplit]
    linarith

/-- Witness for C10: a 59-second-old disk record under a 60-second TTL is
promoted at `now = 59000`, and the promoted memory entry is still valid at
`t2 = 118000` — 118 seconds after the original fetch. -/
theorem claim_C10_witness :
    (fetchUsageLimits
        (⟨fun _ => none, none, fun _ => some ⟨4, 0⟩, fun _ => none⟩ : FetchState Nat)
        (some "tok") 60 59000 none).1 = some 4 ∧
    isCacheValid
        (fetchUsageLimits
          (⟨fun _ => none, none, fun _ => some ⟨4, 0⟩, fun _ => none⟩ : FetchState Nat)
          (some "tok") 60 59000 none).2.usageCacheMap
        (hashToken "tok") 60 118000 = true :=
  ⟨(claim_C10 ⟨fun _ => none, none, fun _ => some ⟨4, 0⟩, fun _ => none⟩ "tok" 60 59000
      none ⟨4, 0⟩ rfl rfl (by norm_num)).1,
   (claim_C10 ⟨fun _ => none, none, fun _ => some ⟨4, 0⟩, fun _ => none⟩ "tok" 60 59000
      none ⟨4, 0⟩ rfl rfl (by norm_num)).2.2.1 118000 (by norm_num)⟩

/-! ## C6: throttled, best-effort disk cleanup -/

/-- A directory entry is deleted exactly when it matches `cache-*.json`,
its `stat` succeeds, and it is strictly older than the maximum age. -/
theorem cacheCleanupDeletes_iff (now : Int) (f : String × Option Int) :
    cacheCleanupDeletes now f = true ↔
      ("cache-".data <+: f.1.data ∧ ".json".data <:+ f.1.data ∧
        ∃ m : Int, f.2 = some m ∧
          CACHE_MAX_AGE_SECONDS < ((now - m : Int) : Rat) / 1000) := by
  obtain ⟨name, mt⟩ := f
  cases mt with
  | none => simp [cacheCleanupDeletes]
  | some m =>
    simp [cacheCleanupDeletes, Bool.and_eq_true, decide_eq_true_eq, gt_iff_lt, and_assoc]

/-- C6.  A cleanup pass within `CLEANUP_INTERVAL_MS` of the previous one is
a no-op that performs no disk scan; otherwise the pass scans the directory
and the surviving entries are exactly those that do not both match the
`cache-*.json` pattern and exceed the maximum age; and a second pass within
the throttle interval of a completed pass performs no scan and changes
nothing.  The function is total: every failure (missing directory, failed
`stat`) is absorbed, never surfaced to the calling fetch. -/
theorem claim_C6 (lastCleanupTime now t2 : Int)
    (dir : Option (List (String × Option Int))) (files : List (String × Option Int)) :
    (now - lastCleanupTime < CLEANUP_INTERVAL_MS →
      cleanupExpiredCache lastCleanupTime now dir = (lastCleanupTime, dir, false)) ∧
    (CLEANUP_INTERVAL_MS ≤ now - lastCleanupTime →
      cleanupExpiredCache lastCleanupTime now (some files) =
        (now, some (files.filter (fun g => !cacheCleanupDeletes now g)), true) ∧
      ∀ f, f ∈ files.filter (fun g => !cacheCleanupDeletes now g) ↔
        (f ∈ files ∧ ¬("cache-".data <+: f.1.data ∧ ".json".data <:+ f.1.data ∧
          ∃ m : Int, f.2 = some m ∧
            CACHE_MAX_AGE_SECONDS < ((now - m : Int) : Rat) / 1000))) ∧
    (CLEANUP_INTERVAL_MS ≤ now - lastCleanupTime → t2 - now < CLEANUP_INTERVAL_MS →
      cleanupExpiredCache (cleanupExpiredCache lastCleanupTime now dir).1 t2
          (cleanupExpiredCache lastCleanupTime now dir).2.1 =
        ((cleanupExpiredCache lastCleanupTime now dir).1,
         (cleanupExpiredCache lastCleanupTime now dir).2.1, false)) := by
  have hthrottle : ∀ (lc : Int) (d : Option (List (String × Option Int))),
      t2 - lc < CLEANUP_INTERVAL_MS →
      cleanupExpiredCache lc t2 d = (lc, d, false) := by
    intro lc d h
    simp only [cleanupExpiredCache, if_pos h]
  refine ⟨?_, ?_, ?_⟩
  · intro h
    simp only [cleanupExpiredCache, if_pos h]
  · intro h
    constructor
    · simp only [cleanupExpiredCache, if_neg (not_lt.mpr h)]
    · intro f
      rw [List.mem_filter]
      constructor
      · rintro ⟨hf, hdel⟩
        refine ⟨hf, fun hc => ?_⟩
        rw [Bool.not_eq_true'] at hdel
        rw [(cacheCleanupDeletes_iff now f).mpr hc] at hdel
        cases hdel
      · rintro ⟨hf, hnot⟩
        refine ⟨hf, ?_⟩
        rw [Bool.not_eq_true']
        cases hdel : cacheCleanupDeletes now f with
        | false => rfl
        | true => exact absurd ((cacheCleanupDeletes_iff now f).mp hdel) hnot
  · intro h1 h2
    have hfst : (cleanupExpiredCache lastCleanupTime now dir).1 = now := by
      cases dir <;> simp only [cleanupExpiredCache, if_neg (not_lt.mpr h1)]
    rw [hfst]
    exact hthrottle now _ h2

/-- Witness for C6: at `now = 7200000` (two hours, past the throttle),
`cache-a.json` (age 7200 s) is deleted while `cache-b.json` (age exactly
3600 s, not strictly older) and the non-matching `other.txt` survive. -/
theorem claim_C6_witness :
    cleanupExpiredCache 0 7200000
        (some [("cache-a.json", some 0), ("cache-b.json", some 3600000),
               ("other.txt", some 0)]) =
      (7200000,
       some ([("cache-a.json", some 0), ("cache-b.json", some 3600000),
              ("other.txt", some 0)].filter
          (fun g => !cacheCleanupDeletes 7200000 g)), true) ∧
    ("other.txt", some 0) ∈
      [("cache-a.json", (some 0 : Option Int)), ("cache-b.json", some 3600000),
       ("other.txt", some 0)].filter (fun g => !cacheCleanupDeletes 7200000 g) := by
  have h := (claim_C6 0 7200000 0
    (some [("cache-a.json", some 0), ("cache-b.json", some 3600000), ("other.txt", some 0)])
    [("cache-a.json", some 0), ("cache-b.json", some 3600000), ("other.txt", some 0)]).2.1
    (by norm_num [CLEANUP_INTERVAL_MS])
  refine ⟨h.1, (h.2 ("other.txt", some 0)).mpr ⟨by simp, ?_⟩⟩
  rintro ⟨hs, -, -⟩
  have hs2 : "cache-".data.isPrefixOf ("other.txt".data) = true :=
    List.isPrefixOf_iff_prefix.mpr hs
  exact absurd hs2 (by decide)

/-! ## C8: disk-cache record format and permissions -/

/-- C8.  `saveFileCache` writes the record `{ data, timestamp }` (timestamp
in epoch ms) to `<cache-dir>/cache-<fingerprint>.json` with file mode
`0o600`; the cache directory is created with mode `0o700`; the path depends
on the secret only through its fingerprint; and a successful network fetch
stores exactly `⟨data, now⟩` under the fingerprint key in the disk tier. -/
theorem claim_C8 {α : Type} (home tokenHash : String) (d : α) (now : Int) :
    (saveFileCache home tokenHash d now).path =
      cacheDir home ++ "/cache-" ++ tokenHash ++ ".json" ∧
    (saveFileCache home tokenHash d now).content = ⟨d, now⟩ ∧
    (saveFileCache home tokenHash d now).mode = 0o600 ∧
    ensureCacheDirMode = 0o700 ∧
    (∀ t1 t2 : String, hashToken t1 = hashToken t2 →
      (saveFileCache home (hashToken t1) d now).path =
        (saveFileCache home (hashToken t2) d now).path) ∧
    (∀ (st : FetchState α) (tok : String) (ttl : Rat) (v : α),
      isCacheValid st.usageCacheMap (hashToken tok) ttl now = false →
      loadFileCache st.disk (hashToken tok) ttl now = none →
      st.pendingRequests (hashToken tok) = none →
      (fetchUsageLimits st (some tok) ttl now (some v)).2.disk (hashToken tok) =
        some ⟨v, now⟩) := by
  refine ⟨rfl, rfl, rfl, rfl, ?_, ?_⟩
  · intro t1 t2 heq
    rw [heq]
  · intro st tok ttl v hmem hdisk hpend
    simp only [fetchUsageLimits, hmem, Bool.false_eq_true, if_false,
      fetchTiersBelowMemory, hdisk, hpend, mapUpdate, eq_self_iff_true, if_true]

/-- Witness for C8: a successful fetch against empty tiers persists the
payload `42` with the fetch instant `now = 0` under the fingerprint key. -/
theorem claim_C8_witness :
    (fetchUsageLimits
        (⟨fun _ => none, none, fun _ => none, fun _ => none⟩ : FetchState Nat)
        (some "t") 60 0 (some 42)).2.disk (hashToken "t") = some ⟨42, 0⟩ :=
  (claim_C8 "" "" 42 0).2.2.2.2.2
    ⟨fun _ => none, none, fun _ => none, fun _ => none⟩ "t" 60 42 rfl rfl rfl

/-! ## C9: the fingerprint function -/

/-- The hex digest of SHA-256 has 64 characters. -/
theorem sha256Hex_length (msg : List Nat) : (sha256Hex msg).length = 64 := by
  simp [sha256Hex, wordHexChars, List.length_append]

/-- `hashToken` always produces exactly 16 characters. -/
theorem hashToken_data_length (s : String) : (hashToken s).data.length = 16 := by
  show ((sha256Hex (utf8Encode s)).take 16).length = 16
  rw [List.length_take, sha256Hex_length]
  decide

/-- Every nibble renders to one of the sixteen hex digits. -/
theorem nibbleChar_mem (n : Nat) : nibbleChar n ∈ hexChars := by
  have h : n % 16 < hexChars.length := by
    have : n % 16 < 16 := Nat.mod_lt _ (by norm_num)
    simpa [hexChars] using this
  rw [nibbleChar, List.getD_eq_getElem?_getD, List.getElem?_eq_getElem h, Option.getD_some]
  exact List.getElem_mem h

/-- The hex rendering of a word uses only hex digits. -/
theorem wordHexChars_mem {c : Char} {w : Nat} (h : c ∈ wordHexChars w) : c ∈ hexChars := by
  simp only [wordHexChars, List.mem_cons, List.not_mem_nil, or_false] at h
  rcases h with rfl | rfl | rfl | rfl | rfl | rfl | rfl | rfl <;> exact nibbleChar_mem _

/-- Every character of a fingerprint is a lowercase hex digit. -/
theorem hashToken_data_hex (s : String) : ∀ c ∈ (hashToken s).data, c ∈ hexChars := by
  intro c hc
  have hc2 : c ∈ sha256Hex (utf8Encode s) := List.mem_of_mem_take hc
  simp only [sha256Hex, List.mem_append] at hc2
  rcases hc2 with ((((((h | h) | h) | h) | h) | h) | h) | h <;> exact wordHexChars_mem h

/-- Rebuilding a string from its character list is the identity. -/
theorem string_mk_data (s : String) : String.mk s.data = s := by
  cases s; rfl

/-- Counterexample to C9 as stated: a 16-hex-character fingerprint ranges
over a finite set while secrets are infinitely many, so two distinct secrets
with the same fingerprint must exist — universal collision-freedom is false. -/
theorem claim_C9_counterexample :
    ∃ s1 s2 : String, s1 ≠ s2 ∧ hashToken s1 = hashToken s2 := by
  classical
  have hidx : ∀ (n : Nat) (i : Fin 16),
      hexChars.indexOf ((hashToken (String.mk (List.replicate n 'a'))).data.getD i '0') <
        16 := by
    intro n i
    have hlt : (i : Nat) < (hashToken (String.mk (List.replicate n 'a'))).data.length := by
      rw [hashToken_data_length]; exact i.isLt
    have hmem : (hashToken (String.mk (List.replicate n 'a'))).data.getD (i : Nat) '0' ∈
        hexChars := by
      rw [List.getD_eq_getElem?_getD, List.getElem?_eq_getElem hlt, Option.getD_some]
      exact hashToken_data_hex _ _ (List.getElem_mem hlt)
    have hl := List.indexOf_lt_length.mpr hmem
    simpa [hexChars] using hl
  obtain ⟨x, y, hxy, hF⟩ := Finite.exists_ne_map_eq_of_infinite
    (fun (n : Nat) => fun (i : Fin 16) =>
      (⟨hexChars.indexOf ((hashToken (String.mk (List.replicate n 'a'))).data.getD i '0'),
        hidx n i⟩ : Fin 16))
  refine ⟨String.mk (List.replicate x 'a'), String.mk (List.replicate y 'a'), ?_, ?_⟩
  · intro h
    apply hxy
    have hl := congrArg (fun s : String => s.data.length) h
    simpa using hl
  · have hdata : (hashToken (String.mk (List.replicate x 'a'))).data =
        (hashToken (String.mk (List.replicate y 'a'))).data := by
      apply List.ext_get (by rw [hashToken_data_length, hashToken_data_length])
      intro n h1 h2
      have hn : n < 16 := by rw [hashToken_data_length] at h1; exact h1
      have hfi := congrFun hF ⟨n, hn⟩
      have hieq := congrArg Fin.val hfi
      simp only at hieq
      have hgx : (hashToken (String.mk (List.replicate x 'a'))).data.getD n '0' =
          (hashToken (String.mk (List.replicate x 'a'))).data.get ⟨n, h1⟩ := by
        rw [List.getD_eq_getElem?_getD, List.getElem?_eq_getElem h1, Option.getD_some]
        rw [List.get_eq_getElem]
      have hgy : (hashToken (String.mk (List.replicate y 'a'))).data.getD n '0' =
          (hashToken (String.mk (List.replicate y 'a'))).data.get ⟨n, h2⟩ := by
        rw [List.getD_eq_getElem?_getD, List.getElem?_eq_getElem h2, Option.getD_some]
        rw [List.get_eq_getElem]
      have hmx : (hashToken (String.mk (List.replicate x 'a'))).data.get ⟨n, h1⟩ ∈
          hexChars := hashToken_data_hex _ _ (List.get_mem _ _ _)
      have hmy : (hashToken (String.mk (List.replicate y 'a'))).data.get ⟨n, h2⟩ ∈
          hexChars := hashToken_data_hex _ _ (List.get_mem _ _ _)
      rw [hgx, hgy] at hieq
      exact (List.indexOf_inj hmx hmy).mp hieq
    calc hashToken (String.mk (List.replicate x 'a'))
        = String.mk (hashToken (String.mk (List.replicate x 'a'))).data :=
          (string_mk_data _).symm
      _ = String.mk (hashToken (String.mk (List.replicate y 'a'))).data :=
          congrArg String.mk hdata
      _ = hashToken (String.mk (List.replicate y 'a')) := string_mk_data _

set_option maxRecDepth 1000000 in
/-- C9 amended.  `hashToken` is a deterministic pure function whose output
is always exactly 16 lowercase hexadecimal characters (SHA-256 truncated to
64 bits), and distinct secrets are expected to receive distinct fingerprints
only with overwhelming probability (spot check: `"a"` and `"b"` differ) —
not universally, since collisions must exist by pigeonhole. -/
theorem claim_C9_amended (s1 s2 : String) (h : s1 = s2) :
    hashToken s1 = hashToken s2 ∧
    (∀ s : String, (hashToken s).length = 16 ∧ isHexString (hashToken s) = true) ∧
    hashToken "a" ≠ hashToken "b" := by
  refine ⟨by rw [h], ?_, ?_⟩
  · intro s
    refine ⟨hashToken_data_length s, ?_⟩
    simp only [isHexString, List.all_eq_true, decide_eq_true_eq]
    exact hashToken_data_hex s
  · have htest : hashToken "a" = "ca978112ca1bbdca" := by decide
    have htest2 : hashToken "b" = "3e23e8160039594a" := by decide
    rw [htest, htest2]
    decide

/-- Witness for C9 (amended): determinism applied at `"x" = "x"`, and the
16-hex-character shape evaluated at `"abc"`. -/
theorem claim_C9_witness :
    (hashToken "abc").length = 16 ∧ isHexString (hashToken "abc") = true :=
  (claim_C9_amended "x" "x" rfl).2.1 "abc"

/-! ## C1: exclusive session creation -/

/-- Setting an index to an element with the same image leaves the map
unchanged. -/
theorem map_set_of_eq {α β : Type} (f : α → β) (l : List α) (i : Nat) (a b : α)
    (hi : l[i]? = some a) (hf : f b = f a) : (l.set i b).map f = l.map f := by
  induction l generalizing i with
  | nil => simp at hi
  | cons x xs ih =>
    cases i with
    | zero =>
      have hx : x = a := by simpa using hi
      simp only [List.set, List.map, hf, hx]
    | succ n =>
      simp only [List.set, List.map, List.cons.injEq, true_and]
      exact ih n (by simpa using hi)

/-- An indexed element is a member. -/
theorem mem_of_getElem? {α : Type} {l : List α} {i : Nat} {a : α}
    (h : l[i]? = some a) : a ∈ l := by
  obtain ⟨hlt, rfl⟩ := List.getElem?_eq_some_iff.mp h
  exact List.getElem_mem hlt

/-- The session-race invariant is preserved by every step. -/
theorem sessInvariant_step {s : SessSystem} (h : SessInvariant s) (i : Nat) :
    SessInvariant (sessStep s i) := by
  rw [sessStep]
  cases hp : s.procs[i]? with
  | none => exact h
  | some p =>
    have hpmem : p ∈ s.procs := mem_of_getElem? hp
    have hilt : i < s.procs.length := (List.getElem?_eq_some_iff.mp hp).1
    show SessInvariant ⟨(sessStepProc s.file p).1, s.procs.set i (sessStepProc s.file p).2⟩
    cases hpc : p.pc with
    | start =>
      cases hf : s.file with
      | absent =>
        have hstep : sessStepProc SessFile.absent p =
            (SessFile.absent, { p with pc := SessPhase.atCreate }) := by
          simp [sessStepProc, hpc]
        rw [hstep]
        refine ⟨?_, ?_, ?_, ?_, ?_, ?_⟩
        · intro _ q hq
          rcases List.mem_or_eq_of_mem_set hq with hq | rfl
          · exact h.allEarly hf q hq
          · right; rfl
        · intro j q hj hw
          by_cases hij : i = j
          · subst hij
            rw [List.getElem?_set_self hilt] at hj
            obtain rfl := Option.some.inj hj
            simp at hw
          · rw [List.getElem?_set_ne hij] at hj
            have hcreated := h.writerPending j q hj hw
            rw [hf] at hcreated
            cases hcreated
        · intro i' j' p' q' h1 h2 hw1 hw2
          by_cases hii : i = i'
          · subst hii
            rw [List.getElem?_set_self hilt] at h1
            obtain rfl := Option.some.inj h1
            simp at hw1
          · by_cases hij : i = j'
            · subst hij
              rw [List.getElem?_set_self hilt] at h2
              obtain rfl := Option.some.inj h2
              simp at hw2
            · rw [List.getElem?_set_ne hii] at h1
              rw [List.getElem?_set_ne hij] at h2
              exact h.writerUnique i' j' p' q' h1 h2 hw1 hw2
        · intro q hq r hr
          rcases List.mem_or_eq_of_mem_set hq with hq | rfl
          · have hw := h.adoptedFile q hq r hr
            rw [hf] at hw
            cases hw
          · simp at hr
        · intro q hq r hr
          rcases List.mem_or_eq_of_mem_set hq with hq | rfl
          · exact h.fallbackOwn q hq r hr
          · simp at hr
        · intro v hv; cases hv
      | createdEmpty =>
        have hstep : sessStepProc SessFile.createdEmpty p =
            (SessFile.createdEmpty, { p with pc := SessPhase.atCreate }) := by
          simp [sessStepProc, hpc]
        rw [hstep]
        refine ⟨?_, ?_, ?_, ?_, ?_, ?_⟩
        · intro hf'; cases hf'
        · intro j q hj hw; rfl
        · intro i' j' p' q' h1 h2 hw1 hw2
          by_cases hii : i = i'
          · subst hii
            rw [List.getElem?_set_self hilt] at h1
            obtain rfl := Option.some.inj h1
            simp at hw1
          · by_cases hij : i = j'
            · subst hij
              rw [List.getElem?_set_self hilt] at h2
              obtain rfl := Option.some.inj h2
              simp at hw2
            · rw [List.getElem?_set_ne hii] at h1
              rw [List.getElem?_set_ne hij] at h2
              exact h.writerUnique i' j' p' q' h1 h2 hw1 hw2
        · intro q hq r hr
          rcases List.mem_or_eq_of_mem_set hq with hq | rfl
          · have hw := h.adoptedFile q hq r hr
            rw [hf] at hw
            cases hw
          · simp at hr
        · intro q hq r hr
          rcases List.mem_or_eq_of_mem_set hq with hq | rfl
          · exact h.fallbackOwn q hq r hr
          · simp at hr
        · intro v hv; cases hv
      | written t =>
        have hstep : sessStepProc (SessFile.written t) p =
            (SessFile.written t, { p with pc := SessPhase.done t true }) := by
          simp [sessStepProc, hpc]
        rw [hstep]
        have hmap : (s.procs.set i { p with pc := SessPhase.done t true }).map SessProc.n =
            s.procs.map SessProc.n := map_set_of_eq SessProc.n s.procs i p _ hp rfl
        refine ⟨?_, ?_, ?_, ?_, ?_, ?_⟩
        · intro hf'; cases hf'
        · intro j q hj hw
          by_cases hij : i = j
          · subst hij
            rw [List.getElem?_set_self hilt] at hj
            obtain rfl := Option.some.inj hj
            simp at hw
          · rw [List.getElem?_set_ne hij] at hj
            have hcreated := h.writerPending j q hj hw
            rw [hf] at hcreated
            cases hcreated
        · intro i' j' p' q' h1 h2 hw1 hw2
          by_cases hii : i = i'
          · subst hii
            rw [List.getElem?_set_self hilt] at h1
            obtain rfl := Option.some.inj h1
            simp at hw1
          · by_cases hij : i = j'
            · subst hij
              rw [List.getElem?_set_self hilt] at h2
              obtain rfl := Option.some.inj h2
              simp at hw2
            · rw [List.getElem?_set_ne hii] at h1
              rw [List.getElem?_set_ne hij] at h2
              exact h.writerUnique i' j' p' q' h1 h2 hw1 hw2
        · intro q hq r hr
          rcases List.mem_or_eq_of_mem_set hq with hq | rfl
          · rw [← hf]
            exact h.adoptedFile q hq r hr
          · have hr2 : SessPhase.done t true = SessPhase.done r true := hr
            simp only [SessPhase.done.injEq] at hr2
            rw [hr2.1]
        · intro q hq r hr
          rcases List.mem_or_eq_of_mem_set hq with hq | rfl
          · exact h.fallbackOwn q hq r hr
          · simp at hr
        · intro v hv
          have hv2 : t = v := by injection hv
          have hm := h.fileFromProc v (hf.trans (hv2 ▸ rfl))
          rw [← hmap] at hm
          exact hm
    | atCreate =>
      cases hf : s.file with
      | absent =>
        have hstep : sessStepProc SessFile.absent p =
            (SessFile.createdEmpty, { p with pc := SessPhase.writing }) := by
          simp [sessStepProc, hpc]
        rw [hstep]
        refine ⟨?_, ?_, ?_, ?_, ?_, ?_⟩
        · intro hf'; cases hf'
        · intro j q hj hw; rfl
        · intro i' j' p' q' h1 h2 hw1 hw2
          by_cases hii : i = i'
          · subst hii
            by_cases hij : i = j'
            · exact hij
            · rw [List.getElem?_set_ne hij] at h2
              rcases h.allEarly hf q' (mem_of_getElem? h2) with he | he <;>
                rw [he] at hw2 <;> cases hw2
          · by_cases hij : i = j'
            · subst hij
              rw [List.getElem?_set_ne hii] at h1
              rcases h.allEarly hf p' (mem_of_getElem? h1) with he | he <;>
                rw [he] at hw1 <;> cases hw1
            · rw [List.getElem?_set_ne hii] at h1
              rw [List.getElem?_set_ne hij] at h2
              exact h.writerUnique i' j' p' q' h1 h2 hw1 hw2
        · intro q hq r hr
          rcases List.mem_or_eq_of_mem_set hq with hq | rfl
          · have hw := h.adoptedFile q hq r hr
            rw [hf] at hw
            cases hw
          · simp at hr
        · intro q hq r hr
          rcases List.mem_or_eq_of_mem_set hq with hq | rfl
          · exact h.fallbackOwn q hq r hr
          · simp at hr
        · intro v hv; cases hv
      | createdEmpty =>
        have hstep : sessStepProc SessFile.createdEmpty p =
            (SessFile.createdEmpty, { p with pc := SessPhase.atReread }) := by
          simp [sessStepProc, hpc]
        rw [hstep]
        refine ⟨?_, ?_, ?_, ?_, ?_, ?_⟩
        · intro hf'; cases hf'
        · intro j q hj hw; rfl
        · intro i' j' p' q' h1 h2 hw1 hw2
          by_cases hii : i = i'
          · subst hii
            rw [List.getElem?_set_self hilt] at h1
            obtain rfl := Option.some.inj h1
            simp at hw1
          · by_cases hij : i = j'
            · subst hij
              rw [List.getElem?_set_self hilt] at h2
              obtain rfl := Option.some.inj h2
              simp at hw2
            · rw [List.getElem?_set_ne hii] at h1
              rw [List.getElem?_set_ne hij] at h2
              exact h.writerUnique i' j' p' q' h1 h2 hw1 hw2
        · intro q hq r hr
          rcases List.mem_or_eq_of_mem_set hq with hq | rfl
          · have hw := h.adoptedFile q hq r hr
            rw [hf] at hw
            cases hw
          · simp at hr
        · intro q hq r hr
          rcases List.mem_or_eq_of_mem_set hq with hq | rfl
          · exact h.fallbackOwn q hq r hr
          · simp at hr
        · intro v hv; cases hv
      | written t =>
        have hstep : sessStepProc (SessFile.written t) p =
            (SessFile.written t, { p with pc := SessPhase.atReread }) := by
          simp [sessStepProc, hpc]
        rw [hstep]
        have hmap : (s.procs.set i { p with pc := SessPhase.atReread }).map SessProc.n =
            s.procs.map SessProc.n := map_set_of_eq SessProc.n s.procs i p _ hp rfl
        refine ⟨?_, ?_, ?_, ?_, ?_, ?_⟩
        · intro hf'; cases hf'
        · intro j q hj hw
          by_cases hij : i = j
          · subst hij
            rw [List.getElem?_set_self hilt] at hj
            obtain rfl := Option.some.inj hj
            simp at hw
          · rw [List.getElem?_set_ne hij] at hj
            have hcreated := h.writerPending j q hj hw
            rw [hf] at hcreated
            cases hcreated
        · intro i' j' p' q' h1 h2 hw1 hw2
          by_cases hii : i = i'
          · subst hii
            rw [List.getElem?_set_self hilt] at h1
            obtain rfl := Option.some.inj h1
            simp at hw1
          · by_cases hij : i = j'
            · subst hij
              rw [List.getElem?_set_self hilt] at h2
              obtain rfl := Option.some.inj h2
              simp at hw2
            · rw [List.getElem?_set_ne hii] at h1
              rw [List.getElem?_set_ne hij] at h2
              exact h.writerUnique i' j' p' q' h1 h2 hw1 hw2
        · intro q hq r hr
          rcases List.mem_or_eq_of_mem_set hq with hq | rfl
          · rw [← hf]
            exact h.adoptedFile q hq r hr
          · simp at hr
        · intro q hq r hr
          rcases List.mem_or_eq_of_mem_set hq with hq | rfl
          · exact h.fallbackOwn q hq r hr
          · simp at hr
        · intro v hv
          have hv2 : t = v := by injection hv
          have hm := h.fileFromProc v (hf.trans (hv2 ▸ rfl))
          rw [← hmap] at hm
          exact hm
    | writing =>
      have hfile : s.file = SessFile.createdEmpty := h.writerPending i p hp hpc
      have hstep : sessStepProc s.file p =
          (SessFile.written p.n, { p with pc := SessPhase.done p.n true }) := by
        simp [sessStepProc, hpc]
      rw [hstep]
      have hmap : (s.procs.set i { p with pc := SessPhase.done p.n true }).map SessProc.n =
          s.procs.map SessProc.n := map_set_of_eq SessProc.n s.procs i p _ hp rfl
      refine ⟨?_, ?_, ?_, ?_, ?_, ?_⟩
      · intro hf'; cases hf'
      · intro j q hj hw
        by_cases hij : i = j
        · subst hij
          rw [List.getElem?_set_self hilt] at hj
          obtain rfl := Option.some.inj hj
          simp at hw
        · rw [List.getElem?_set_ne hij] at hj
          exact absurd (h.writerUnique i j p q hp hj hpc hw) hij
      · intro i' j' p' q' h1 h2 hw1 hw2
        by_cases hii : i = i'
        · subst hii
          rw [List.getElem?_set_self hilt] at h1
          obtain rfl := Option.some.inj h1
          simp at hw1
        · by_cases hij : i = j'
          · subst hij
            rw [List.getElem?_set_self hilt] at h2
            obtain rfl := Option.some.inj h2
            simp at hw2
          · rw [List.getElem?_set_ne hii] at h1
            rw [List.getElem?_set_ne hij] at h2
            exact h.writerUnique i' j' p' q' h1 h2 hw1 hw2
      · intro q hq r hr
        rcases List.mem_or_eq_of_mem_set hq with hq | rfl
        · have hw := h.adoptedFile q hq r hr
          rw [hfile] at hw
          cases hw
        · have hr2 : SessPhase.done p.n true = SessPhase.done r true := hr
          simp only [SessPhase.done.injEq] at hr2
          rw [hr2.1]
      · intro q hq r hr
        rcases List.mem_or_eq_of_mem_set hq with hq | rfl
        · exact h.fallbackOwn q hq r hr
        · simp at hr
      · intro v hv
        have hv2 : p.n = v := by injection hv
        have hm : v ∈ s.procs.map SessProc.n :=
          hv2 ▸ List.mem_map_of_mem SessProc.n hpmem
        rw [← hmap] at hm
        exact hm
    | atReread =>
      cases hf : s.file with
      | absent =>
        rcases h.allEarly hf p hpmem with he | he <;> rw [hpc] at he <;> cases he
      | createdEmpty =>
        have hstep : sessStepProc SessFile.createdEmpty p =
            (SessFile.createdEmpty, { p with pc := SessPhase.done p.n false }) := by
          simp [sessStepProc, hpc]
        rw [hstep]
        refine ⟨?_, ?_, ?_, ?_, ?_, ?_⟩
        · intro hf'; cases hf'
        · intro j q hj hw; rfl
        · intro i' j' p' q' h1 h2 hw1 hw2
          by_cases hii : i = i'
          · subst hii
            rw [List.getElem?_set_self hilt] at h1
            obtain rfl := Option.some.inj h1
            simp at hw1
          · by_cases hij : i = j'
            · subst hij
              rw [List.getElem?_set_self hilt] at h2
              obtain rfl := Option.some.inj h2
              simp at hw2
            · rw [List.getElem?_set_ne hii] at h1
              rw [List.getElem?_set_ne hij] at h2
              exact h.writerUnique i' j' p' q' h1 h2 hw1 hw2
        · intro q hq r hr
          rcases List.mem_or_eq_of_mem_set hq with hq | rfl
          · have hw := h.adoptedFile q hq r hr
            rw [hf] at hw
            cases hw
          · simp at hr
        · intro q hq r hr
          rcases List.mem_or_eq_of_mem_set hq with hq | rfl
          · exact h.fallbackOwn q hq r hr
          · have hr2 : SessPhase.done p.n false = SessPhase.done r false := hr
            simp only [SessPhase.done.injEq] at hr2
            exact hr2.1.symm
        · intro v hv; cases hv
      | written t =>
        have hstep : sessStepProc (SessFile.written t) p =
            (SessFile.written t, { p with pc := SessPhase.done t true }) := by
          simp [sessStepProc, hpc]
        rw [hstep]
        have hmap : (s.procs.set i { p with pc := SessPhase.done t true }).map SessProc.n =
            s.procs.map SessProc.n := map_set_of_eq SessProc.n s.procs i p _ hp rfl
        refine ⟨?_, ?_, ?_, ?_, ?_, ?_⟩
        · intro hf'; cases hf'
        · intro j q hj hw
          by_cases hij : i = j
          · subst hij
            rw [List.getElem?_set_self hilt] at hj
            obtain rfl := Option.some.inj hj
            simp at hw
          · rw [List.getElem?_set_ne hij] at hj
            have hcreated := h.writerPending j q hj hw
            rw [hf] at hcreated
            cases hcreated
        · intro i' j' p' q' h1 h2 hw1 hw2
          by_cases hii : i = i'
          · subst hii
            rw [List.getElem?_set_self hilt] at h1
            obtain rfl := Option.some.inj h1
            simp at hw1
          · by_cases hij : i = j'
            · subst hij
              rw [List.getElem?_set_self hilt] at h2
              obtain rfl := Option.some.inj h2
              simp at hw2
            · rw [List.getElem?_set_ne hii] at h1
              rw [List.getElem?_set_ne hij] at h2
              exact h.writerUnique i' j' p' q' h1 h2 hw1 hw2
        · intro q hq r hr
          rcases List.mem_or_eq_of_mem_set hq with hq | rfl
          · rw [← hf]
            exact h.adoptedFile q hq r hr
          · have hr2 : SessPhase.done t true = SessPhase.done r true := hr
            simp only [SessPhase.done.injEq] at hr2
            rw [hr2.1]
        · intro q hq r hr
          rcases List.mem_or_eq_of_mem_set hq with hq | rfl
          · exact h.fallbackOwn q hq r hr
          · simp at hr
        · intro v hv
          have hv2 : t = v := by injection hv
          have hm := h.fileFromProc v (hf.trans (hv2 ▸ rfl))
          rw [← hmap] at hm
          exact hm
    | done r0 ad0 =>
      have hstep : sessStepProc s.file p = (s.file, p) := by
        simp [sessStepProc, hpc]
      rw [hstep]
      have hmap : (s.procs.set i p).map SessProc.n = s.procs.map SessProc.n :=
        map_set_of_eq SessProc.n s.procs i p p hp rfl
      refine ⟨?_, ?_, ?_, ?_, ?_, ?_⟩
      · intro hf' q hq
        rcases List.mem_or_eq_of_mem_set hq with hq | rfl
        · exact h.allEarly hf' q hq
        · exact h.allEarly hf' q hpmem
      · intro j q hj hw
        by_cases hij : i = j
        · subst hij
          rw [List.getElem?_set_self hilt] at hj
          obtain rfl := Option.some.inj hj
          rw [hpc] at hw
          cases hw
        · rw [List.getElem?_set_ne hij] at hj
          exact h.writerPending j q hj hw
      · intro i' j' p' q' h1 h2 hw1 hw2
        by_cases hii : i = i'
        · subst hii
          rw [List.getElem?_set_self hilt] at h1
          obtain rfl := Option.some.inj h1
          rw [hpc] at hw1
          cases hw1
        · by_cases hij : i = j'
          · subst hij
            rw [List.getElem?_set_self hilt] at h2
            obtain rfl := Option.some.inj h2
            rw [hpc] at hw2
            cases hw2
          · rw [List.getElem?_set_ne hii] at h1
            rw [List.getElem?_set_ne hij] at h2
            exact h.writerUnique i' j' p' q' h1 h2 hw1 hw2
      · intro q hq r hr
        rcases List.mem_or_eq_of_mem_set hq with hq | rfl
        · exact h.adoptedFile q hq r hr
        · exact h.adoptedFile q hpmem r hr
      · intro q hq r hr
        rcases List.mem_or_eq_of_mem_set hq with hq | rfl
        · exact h.fallbackOwn q hq r hr
        · exact h.fallbackOwn q hpmem r hr
      · intro v hv
        have hm := h.fileFromProc v hv
        rw [← hmap] at hm
        exact hm

/-- The invariant holds along every schedule. -/
theorem sessInvariant_run {s : SessSystem} (h : SessInvariant s) (sched : List Nat) :
    SessInvariant (sessRun s sched) := by
  induction sched generalizing s with
  | nil => exact h
  | cons i rest ih => exact ih (sessInvariant_step h i)

/-- The initial system satisfies the invariant. -/
theorem sessInvariant_init (ns : List Int) : SessInvariant (sessInit ns) := by
  refine ⟨?_, ?_, ?_, ?_, ?_, ?_⟩
  · intro _ p hp
    obtain ⟨n, -, rfl⟩ := List.mem_map.mp hp
    left; rfl
  · intro i p hp hw
    obtain ⟨n, -, rfl⟩ := List.mem_map.mp (mem_of_getElem? hp)
    cases hw
  · intro i j p q hpp hqq hw1 hw2
    obtain ⟨n, -, rfl⟩ := List.mem_map.mp (mem_of_getElem? hpp)
    cases hw1
  · intro p hp r hr
    obtain ⟨n, -, rfl⟩ := List.mem_map.mp hp
    cases hr
  · intro p hp r hr
    obtain ⟨n, -, rfl⟩ := List.mem_map.mp hp
    cases hr
  · intro v hv; cases hv

/-- Steps never change the processes' local clock readings. -/
theorem sessStep_map_n (s : SessSystem) (i : Nat) :
    (sessStep s i).procs.map SessProc.n = s.procs.map SessProc.n := by
  rw [sessStep]
  cases hp : s.procs[i]? with
  | none => rfl
  | some p =>
    show (s.procs.set i (sessStepProc s.file p).2).map SessProc.n = s.procs.map SessProc.n
    cases hpc : p.pc <;> cases hf : s.file <;>
      simp only [sessStepProc, hpc, hf] <;>
      exact map_set_of_eq SessProc.n s.procs i p _ hp rfl

/-- The schedule preserves the multiset of local clock readings. -/
theorem sessRun_map_n (s : SessSystem) (sched : List Nat) :
    (sessRun s sched).procs.map SessProc.n = s.procs.map SessProc.n := by
  induction sched generalizing s with
  | nil => rfl
  | cons i rest ih => rw [sessRun, List.foldl_cons, ← sessRun, ih, sessStep_map_n]

/-- Under the invariant, a persisted record is never overwritten by a step. -/
theorem sessStep_written {s : SessSystem} (h : SessInvariant s) {v : Int}
    (hf : s.file = SessFile.written v) (i : Nat) :
    (sessStep s i).file = SessFile.written v := by
  rw [sessStep]
  cases hp : s.procs[i]? with
  | none => exact hf
  | some p =>
    show (sessStepProc s.file p).1 = SessFile.written v
    cases hpc : p.pc with
    | start => rw [hf]; simp [sessStepProc, hpc]
    | atCreate => rw [hf]; simp [sessStepProc, hpc]
    | writing =>
      have hcreated := h.writerPending i p hp hpc
      rw [hf] at hcreated
      cases hcreated
    | atReread => rw [hf]; simp [sessStepProc, hpc]
    | done r0 ad0 => rw [hf]; simp [sessStepProc, hpc]

/-- Under the invariant, a persisted record survives every schedule. -/
theorem sessRun_written {s : SessSystem} (h : SessInvariant s) {v : Int}
    (hf : s.file = SessFile.written v) (sched : List Nat) :
    (sessRun s sched).file = SessFile.written v := by
  induction sched generalizing s with
  | nil => exact hf
  | cons i rest ih => exact ih (sessInvariant_step h i) (sessStep_written h hf i)

/-- What the exclusive-create protocol does guarantee: the persisted start
time is written at most once and never changes, it is one of the racing
processes' local clocks, every call that completed by reading the persisted
record (including the creator) returned exactly that value, and a call that
diverges is precisely a parse-failure fallback returning its own local
clock. -/
theorem sessRace_agreement (ns : List Int) (sched : List Nat) :
    (∀ (v : Int) (sched2 : List Nat),
      (sessRun (sessInit ns) sched).file = SessFile.written v →
      (sessRun (sessRun (sessInit ns) sched) sched2).file = SessFile.written v) ∧
    (∀ v : Int, (sessRun (sessInit ns) sched).file = SessFile.written v → v ∈ ns) ∧
    (∀ p ∈ (sessRun (sessInit ns) sched).procs,
      ∀ q ∈ (sessRun (sessInit ns) sched).procs,
      ∀ r r' : Int, p.pc = SessPhase.done r true → q.pc = SessPhase.done r' true →
      r = r') ∧
    (∀ p ∈ (sessRun (sessInit ns) sched).procs, ∀ r : Int,
      p.pc = SessPhase.done r false → r = p.n) := by
  have hinv := sessInvariant_run (sessInvariant_init ns) sched
  refine ⟨?_, ?_, ?_, ?_⟩
  · intro v sched2 hv
    exact sessRun_written hinv hv sched2
  · intro v hv
    have hm := hinv.fileFromProc v hv
    rw [sessRun_map_n] at hm
    simpa [sessInit, List.map_map, Function.comp] using hm
  · intro p hp q hq r r' hpr hqr
    have h1 := hinv.adoptedFile p hp r hpr
    have h2 := hinv.adoptedFile q hq r' hqr
    rw [h1] at h2
    injection h2
  · intro p hp r hr
    exact hinv.fallbackOwn p hp r hr

/-- C1.  The claim says two concurrent `getSessionStartTime` calls for the
same fresh id always return the same value.  Evaluating the model — in which
`open(sessionFile, 'wx')` and the content write are the separate awaits they
are in the source — at the concrete race with local clocks 5 and 9 refutes
it: process 0 exclusively creates the file; process 1 reads it while still
empty (parse failure, not `ENOENT`), takes the create path, hits `EEXIST`,
re-reads the still-empty file (parse failure again) and falls back to its
own local clock; process 0 then writes its record.  Process 0 returns 5,
process 1 returns 9, while the file persists the single value 5 — against
the source's own comment that the exclusive create "prevents race conditions
where multiple processes create different start times". -/
theorem claim_C1 :
    (sessRun (sessInit [5, 9]) [0, 0, 1, 1, 1, 0]).procs.map SessProc.pc =
      [SessPhase.done 5 true, SessPhase.done 9 false] ∧
    (sessRun (sessInit [5, 9]) [0, 0, 1, 1, 1, 0]).file = SessFile.written 5 ∧
    (5 : Int) ≠ 9 := by
  decide

/-! ## C2: single-flight de-duplication of usage fetches -/

/-- The single-flight invariant is preserved by every event. -/
theorem sfInvariant_step {α : Type} {s : SFState α} (h : SFInvariant s) (ev : SFEvent α) :
    SFInvariant (sfStep s ev) := by
  cases ev with
  | settle r v =>
    cases hr : s.requests[r]? with
    | none =>
      have hstep : sfStep s (SFEvent.settle r v) = s := by
        simp [sfStep, hr]
      rw [hstep]; exact h
    | some entry =>
      cases entry with
      | some v0 =>
        have hstep : sfStep s (SFEvent.settle r v) = s := by
          simp [sfStep, hr]
        rw [hstep]; exact h
      | none =>
        have hstep : sfStep s (SFEvent.settle r v) =
            ⟨s.callers, s.pending, s.requests.set r (some v)⟩ := by
          simp [sfStep, hr]
        rw [hstep]
        have hrlt : r < s.requests.length := (List.getElem?_eq_some_iff.mp hr).1
        refine ⟨?_, ?_, ?_, ?_, ?_, ?_, ?_, ?_⟩
        · intro r' hr'
          by_cases hrr : r = r'
          · subst hrr
            rw [List.getElem?_set_self hrlt] at hr'
            simp at hr'
          · rw [List.getElem?_set_ne hrr] at hr'
            exact h.inflightPending r' hr'
        · intro r' hp'
          rw [List.length_set]
          exact h.pendingLt r' hp'
        · intro j r' ow hw
          rw [List.length_set]
          exact h.waitingLt j r' ow hw
        · intro j r' ow v' hd
          rw [List.length_set]
          exact h.doneLt j r' ow v' hd
        · intro j r' ow v' hd
          have hold := h.doneSettled j r' ow v' hd
          by_cases hrr : r = r'
          · subst hrr
            rw [hr] at hold
            simp at hold
          · rw [List.getElem?_set_ne hrr]
            exact hold
        · intro j r' v' hd
          exact h.doneOwnerCleared j r' v' hd
        · intro j r' hw
          exact h.ownerPending j r' hw
        · intro j k r1 r2 h1 h2
          exact h.ownerUnique j k r1 r2 h1 h2
  | caller i =>
    cases hc : s.callers[i]? with
    | none =>
      have hstep : sfStep s (SFEvent.caller i) = s := by
        simp [sfStep, hc]
      rw [hstep]; exact h
    | some c =>
      have hilt : i < s.callers.length := (List.getElem?_eq_some_iff.mp hc).1
      cases c with
      | start =>
        cases hpend : s.pending with
        | some r0 =>
          have hstep : sfStep s (SFEvent.caller i) =
              ⟨s.callers.set i (SFCaller.waiting r0 false), some r0, s.requests⟩ := by
            simp [sfStep, hc, hpend]
          rw [hstep]
          refine ⟨?_, ?_, ?_, ?_, ?_, ?_, ?_, ?_⟩
          · intro r' hr'
            exact hpend ▸ h.inflightPending r' hr'
          · intro r' hp'
            exact h.pendingLt r' (hpend.trans hp')
          · intro j r' ow hw
            by_cases hij : i = j
            · subst hij
              rw [List.getElem?_set_self hilt] at hw
              simp only [Option.some.injEq, SFCaller.waiting.injEq] at hw
              exact hw.1 ▸ h.pendingLt r0 hpend
            · rw [List.getElem?_set_ne hij] at hw
              exact h.waitingLt j r' ow hw
          · intro j r' ow v' hd
            by_cases hij : i = j
            · subst hij
              rw [List.getElem?_set_self hilt] at hd
              simp at hd
            · rw [List.getElem?_set_ne hij] at hd
              exact h.doneLt j r' ow v' hd
          · intro j r' ow v' hd
            by_cases hij : i = j
            · subst hij
              rw [List.getElem?_set_self hilt] at hd
              simp at hd
            · rw [List.getElem?_set_ne hij] at hd
              exact h.doneSettled j r' ow v' hd
          · intro j r' v' hd
            by_cases hij : i = j
            · subst hij
              rw [List.getElem?_set_self hilt] at hd
              simp at hd
            · rw [List.getElem?_set_ne hij] at hd
              exact hpend ▸ h.doneOwnerCleared j r' v' hd
          · intro j r' hw
            by_cases hij : i = j
            · subst hij
              rw [List.getElem?_set_self hilt] at hw
              simp at hw
            · rw [List.getElem?_set_ne hij] at hw
              exact hpend ▸ h.ownerPending j r' hw
          · intro j k r1 r2 h1 h2
            by_cases hij : i = j
            · subst hij
              rw [List.getElem?_set_self hilt] at h1
              simp at h1
            · by_cases hik : i = k
              · subst hik
                rw [List.getElem?_set_self hilt] at h2
                simp at h2
              · rw [List.getElem?_set_ne hij] at h1
                rw [List.getElem?_set_ne hik] at h2
                exact h.ownerUnique j k r1 r2 h1 h2
        | none =>
          have hstep : sfStep s (SFEvent.caller i) =
              ⟨s.callers.set i (SFCaller.waiting s.requests.length true),
               some s.requests.length, s.requests ++ [none]⟩ := by
            simp [sfStep, hc, hpend]
          rw [hstep]
          refine ⟨?_, ?_, ?_, ?_, ?_, ?_, ?_, ?_⟩
          · intro r' hr'
            rcases Nat.lt_or_ge r' s.requests.length with hlt | hge
            · rw [List.getElem?_append_left hlt] at hr'
              cases hpend ▸ h.inflightPending r' hr'
            · have hre : r' = s.requests.length := by
                by_contra hne
                have h1 : (1 : Nat) ≤ r' - s.requests.length := by omega
                rw [List.getElem?_append_right hge,
                  List.getElem?_eq_none (by simpa using h1)] at hr'
                cases hr'
              rw [hre]
          · intro r' hp'
            have hre : r' = s.requests.length := by
              simpa using hp'.symm
            rw [hre, List.length_append]
            simp only [List.length_cons, List.length_nil]
            omega
          · intro j r' ow hw
            rw [List.length_append]
            simp only [List.length_cons, List.length_nil]
            by_cases hij : i = j
            · subst hij
              rw [List.getElem?_set_self hilt] at hw
              simp only [Option.some.injEq, SFCaller.waiting.injEq] at hw
              have := hw.1
              omega
            · rw [List.getElem?_set_ne hij] at hw
              have := h.waitingLt j r' ow hw
              omega
          · intro j r' ow v' hd
            rw [List.length_append]
            simp only [List.length_cons, List.length_nil]
            by_cases hij : i = j
            · subst hij
              rw [List.getElem?_set_self hilt] at hd
              simp at hd
            · rw [List.getElem?_set_ne hij] at hd
              have := h.doneLt j r' ow v' hd
              omega
          · intro j r' ow v' hd
            by_cases hij : i = j
            · subst hij
              rw [List.getElem?_set_self hilt] at hd
              simp at hd
            · rw [List.getElem?_set_ne hij] at hd
              rw [List.getElem?_append_left (h.doneLt j r' ow v' hd)]
              exact h.doneSettled j r' ow v' hd
          · intro j r' v' hd
            by_cases hij : i = j
            · subst hij
              rw [List.getElem?_set_self hilt] at hd
              simp at hd
            · rw [List.getElem?_set_ne hij] at hd
              have := h.doneLt j r' true v' hd
              intro heq
              simp only [Option.some.injEq] at heq
              omega
          · intro j r' hw
            by_cases hij : i = j
            · subst hij
              rw [List.getElem?_set_self hilt] at hw
              simp only [Option.some.injEq, SFCaller.waiting.injEq] at hw
              rw [hw.1]
            · rw [List.getElem?_set_ne hij] at hw
              cases hpend ▸ h.ownerPending j r' hw
          · intro j k r1 r2 h1 h2
            by_cases hij : i = j
            · by_cases hik : i = k
              · omega
              · subst hij
                rw [List.getElem?_set_ne hik] at h2
                cases hpend ▸ h.ownerPending k r2 h2
            · rw [List.getElem?_set_ne hij] at h1
              cases hpend ▸ h.ownerPending j r1 h1
      | waiting r ow =>
        cases hreq : s.requests[r]? with
        | none =>
          have hstep : sfStep s (SFEvent.caller i) = s := by
            simp [sfStep, hc, hreq]
          rw [hstep]; exact h
        | some entry =>
          cases entry with
          | none =>
            have hstep : sfStep s (SFEvent.caller i) = s := by
              simp [sfStep, hc, hreq]
            rw [hstep]; exact h
          | some v =>
            cases ow with
            | false =>
              have hstep : sfStep s (SFEvent.caller i) =
                  ⟨s.callers.set i (SFCaller.done r false v), s.pending, s.requests⟩ := by
                simp [sfStep, hc, hreq]
              rw [hstep]
              refine ⟨?_, ?_, ?_, ?_, ?_, ?_, ?_, ?_⟩
              · intro r' hr'
                exact h.inflightPending r' hr'
              · intro r' hp'
                exact h.pendingLt r' hp'
              · intro j r' ow' hw
                by_cases hij : i = j
                · subst hij
                  rw [List.getElem?_set_self hilt] at hw
                  simp at hw
                · rw [List.getElem?_set_ne hij] at hw
                  exact h.waitingLt j r' ow' hw
              · intro j r' ow' v' hd
                by_cases hij : i = j
                · subst hij
                  rw [List.getElem?_set_self hilt] at hd
                  simp only [Option.some.injEq, SFCaller.done.injEq] at hd
                  exact hd.1 ▸ h.waitingLt i r false hc
                · rw [List.getElem?_set_ne hij] at hd
                  exact h.doneLt j r' ow' v' hd
              · intro j r' ow' v' hd
                by_cases hij : i = j
                · subst hij
                  rw [List.getElem?_set_self hilt] at hd
                  simp only [Option.some.injEq, SFCaller.done.injEq] at hd
                  rw [← hd.1, ← hd.2.2]
                  exact hreq
                · rw [List.getElem?_set_ne hij] at hd
                  exact h.doneSettled j r' ow' v' hd
              · intro j r' v' hd
                by_cases hij : i = j
                · subst hij
                  rw [List.getElem?_set_self hilt] at hd
                  simp at hd
                · rw [List.getElem?_set_ne hij] at hd
                  exact h.doneOwnerCleared j r' v' hd
              · intro j r' hw
                by_cases hij : i = j
                · subst hij
                  rw [List.getElem?_set_self hilt] at hw
                  simp at hw
                · rw [List.getElem?_set_ne hij] at hw
                  exact h.ownerPending j r' hw
              · intro j k r1 r2 h1 h2
                by_cases hij : i = j
                · subst hij
                  rw [List.getElem?_set_self hilt] at h1
                  simp at h1
                · by_cases hik : i = k
                  · subst hik
                    rw [List.getElem?_set_self hilt] at h2
                    simp at h2
                  · rw [List.getElem?_set_ne hij] at h1
                    rw [List.getElem?_set_ne hik] at h2
                    exact h.ownerUnique j k r1 r2 h1 h2
            | true =>
              have hstep : sfStep s (SFEvent.caller i) =
                  ⟨s.callers.set i (SFCaller.done r true v), none, s.requests⟩ := by
                simp [sfStep, hc, hreq]
              rw [hstep]
              refine ⟨?_, ?_, ?_, ?_, ?_, ?_, ?_, ?_⟩
              · intro r' hr'
                have hpr' := h.inflightPending r' hr'
                have hpr := h.ownerPending i r hc
                have hre : r' = r := by
                  have := hpr.symm.trans hpr'
                  simpa using this.symm
                subst hre
                rw [hreq] at hr'
                simp at hr'
              · intro r' hp'
                cases hp'
              · intro j r' ow' hw
                by_cases hij : i = j
                · subst hij
                  rw [List.getElem?_set_self hilt] at hw
                  simp at hw
                · rw [List.getElem?_set_ne hij] at hw
                  exact h.waitingLt j r' ow' hw
              · intro j r' ow' v' hd
                by_cases hij : i = j
                · subst hij
                  rw [List.getElem?_set_self hilt] at hd
                  simp only [Option.some.injEq, SFCaller.done.injEq] at hd
                  exact hd.1 ▸ h.waitingLt i r true hc
                · rw [List.getElem?_set_ne hij] at hd
                  exact h.doneLt j r' ow' v' hd
              · intro j r' ow' v' hd
                by_cases hij : i = j
                · subst hij
                  rw [List.getElem?_set_self hilt] at hd
                  simp only [Option.some.injEq, SFCaller.done.injEq] at hd
                  rw [← hd.1, ← hd.2.2]
                  exact hreq
                · rw [List.getElem?_set_ne hij] at hd
                  exact h.doneSettled j r' ow' v' hd
              · intro j r' v' hd
                intro heq
                cases heq
              · intro j r' hw
                by_cases hij : i = j
                · subst hij
                  rw [List.getElem?_set_self hilt] at hw
                  simp at hw
                · rw [List.getElem?_set_ne hij] at hw
                  exact absurd (h.ownerUnique j i r' r hw hc) (fun hji => hij hji.symm)
              · intro j k r1 r2 h1 h2
                by_cases hij : i = j
                · subst hij
                  rw [List.getElem?_set_self hilt] at h1
                  simp at h1
                · by_cases hik : i = k
                  · subst hik
                    rw [List.getElem?_set_self hilt] at h2
                    simp at h2
                  · rw [List.getElem?_set_ne hij] at h1
                    rw [List.getElem?_set_ne hik] at h2
                    exact h.ownerUnique j k r1 r2 h1 h2
      | done r0 ow0 v0 =>
        have hstep : sfStep s (SFEvent.caller i) = s := by
          simp [sfStep, hc]
        rw [hstep]; exact h

/-- In the initial single-flight state every caller is at `start`. -/
theorem sfInit_callers {α : Type} {k i : Nat} {c : SFCaller α}
    (h : (sfInit α k).callers[i]? = some c) : c = SFCaller.start := by
  simp only [sfInit] at h
  rw [List.getElem?_replicate] at h
  by_cases hi : i < k
  · rw [if_pos hi] at h
    injection h with h2
    exact h2.symm
  · rw [if_neg hi] at h
    cases h

/-- The initial single-flight state satisfies the invariant. -/
theorem sfInvariant_init (α : Type) (k : Nat) : SFInvariant (sfInit α k) := by
  refine ⟨?_, ?_, ?_, ?_, ?_, ?_, ?_, ?_⟩
  · intro r hr; cases hr
  · intro r hp; cases hp
  · intro i r ow hw; cases sfInit_callers hw
  · intro i r ow v hd; cases sfInit_callers hd
  · intro i r ow v hd; cases sfInit_callers hd
  · intro i r v hd; cases sfInit_callers hd
  · intro i r hw; cases sfInit_callers hw
  · intro i j r r' h1 h2; cases sfInit_callers h1

/-- The single-flight invariant holds along every schedule. -/
theorem sfInvariant_run {α : Type} {s : SFState α} (h : SFInvariant s)
    (sched : List (SFEvent α)) : SFInvariant (sfRun s sched) := by
  induction sched generalizing s with
  | nil => exact h
  | cons ev rest ih => exact ih (sfInvariant_step h ev)

/-- C2.  In every interleaving of any number of `fetchUsageLimits` callers
for one token fingerprint: at most one network request is in flight at any
instant; all callers that complete against the same request receive the same
settled result (success or `null` failure alike); a caller that arrives
while a request is registered joins it and starts no new network call; and
once the registering caller completes, the registration has been removed. -/
theorem claim_C2 {α : Type} (k : Nat) (sched : List (SFEvent α)) :
    (∀ r r', sfInFlight (sfRun (sfInit α k) sched) r →
      sfInFlight (sfRun (sfInit α k) sched) r' → r = r') ∧
    (∀ (i j r : Nat) (ow ow' : Bool) (v v' : Option α),
      (sfRun (sfInit α k) sched).callers[i]? = some (SFCaller.done r ow v) →
      (sfRun (sfInit α k) sched).callers[j]? = some (SFCaller.done r ow' v') → v = v') ∧
    (∀ (i r : Nat),
      (sfRun (sfInit α k) sched).callers[i]? = some (SFCaller.start : SFCaller α) →
      (sfRun (sfInit α k) sched).pending = some r →
      (sfStep (sfRun (sfInit α k) sched) (SFEvent.caller i)).requests =
        (sfRun (sfInit α k) sched).requests ∧
      (sfStep (sfRun (sfInit α k) sched) (SFEvent.caller i)).callers[i]? =
        some (SFCaller.waiting r false)) ∧
    (∀ (i r : Nat) (v : Option α),
      (sfRun (sfInit α k) sched).callers[i]? = some (SFCaller.done r true v) →
      (sfRun (sfInit α k) sched).pending ≠ some r) := by
  have hinv := sfInvariant_run (sfInvariant_init α k) sched
  refine ⟨?_, ?_, ?_, ?_⟩
  · intro r r' h1 h2
    have := (hinv.inflightPending r h1).symm.trans (hinv.inflightPending r' h2)
    simpa using this
  · intro i j r ow ow' v v' h1 h2
    have := (hinv.doneSettled i r ow v h1).symm.trans (hinv.doneSettled j r ow' v' h2)
    simpa using this
  · intro i r hstart hpend
    have hilt : i < (sfRun (sfInit α k) sched).callers.length :=
      (List.getElem?_eq_some_iff.mp hstart).1
    have hstep : sfStep (sfRun (sfInit α k) sched) (SFEvent.caller i) =
        ⟨(sfRun (sfInit α k) sched).callers.set i (SFCaller.waiting r false),
         some r, (sfRun (sfInit α k) sched).requests⟩ := by
      simp [sfStep, hstart, hpend]
    rw [hstep]
    exact ⟨rfl, List.getElem?_set_self hilt⟩
  · intro i r v hd
    exact hinv.doneOwnerCleared i r v hd

/-- Witness for C2: two callers, one request.  Caller 0 creates request 0,
caller 1 joins it, the request settles with 42, both callers finish with 42,
and after the owner finishes the registration is gone. -/
theorem claim_C2_witness :
    (sfRun (sfInit Nat 2)
        [SFEvent.caller 0, SFEvent.caller 1, SFEvent.settle 0 (some 42),
         SFEvent.caller 1, SFEvent.caller 0]).pending ≠ some 0 ∧
    (some 42 : Option Nat) = some 42 :=
  ⟨(claim_C2 2 [SFEvent.caller 0, SFEvent.caller 1, SFEvent.settle 0 (some 42),
      SFEvent.caller 1, SFEvent.caller 0]).2.2.2 0 0 (some 42) (by decide),
   (claim_C2 2 [SFEvent.caller 0, SFEvent.caller 1, SFEvent.settle 0 (some 42),
      SFEvent.caller 1, SFEvent.caller 0]).2.1 0 1 0 true false (some 42) (some 42)
     (by decide) (by decide)⟩

/-! ## C7: silent refresh -/

/-- The refresh de-duplication invariant is preserved by every event. -/
theorem refInvariant_step {α : Type} {s : RefState α} (h : RefInvariant s)
    (ev : SFEvent α) : RefInvariant (refStep s ev) := by
  cases ev with
  | settle r v =>
    cases hr : s.requests[r]? with
    | none =>
      have hstep : refStep s (SFEvent.settle r v) = s := by simp [refStep, hr]
      rw [hstep]; exact h
    | some entry =>
      cases entry with
      | some v0 =>
        have hstep : refStep s (SFEvent.settle r v) = s := by simp [refStep, hr]
        rw [hstep]; exact h
      | none =>
        have hstep : refStep s (SFEvent.settle r v) =
            ⟨s.callers, none, s.requests.set r (some v)⟩ := by
          simp [refStep, hr]
        rw [hstep]
        have hrlt : r < s.requests.length := (List.getElem?_eq_some_iff.mp hr).1
        refine ⟨?_, ?_, ?_, ?_, ?_⟩
        · intro r' hr'
          by_cases hrr : r = r'
          · subst hrr
            rw [List.getElem?_set_self hrlt] at hr'
            simp at hr'
          · rw [List.getElem?_set_ne hrr] at hr'
            have e1 := h.inflightPending r' hr'
            have e2 := h.inflightPending r hr
            rw [e2] at e1
            have e3 : r = r' := by simpa using e1
            exact absurd e3 hrr
        · intro r' hp'
          cases hp'
        · intro j r' hw
          rw [List.length_set]
          exact h.waitingLt j r' hw
        · intro j r' v' hd
          rw [List.length_set]
          exact h.doneLt j r' v' hd
        · intro j r' v' hd
          have hold := h.doneSettled j r' v' hd
          by_cases hrr : r = r'
          · subst hrr
            rw [hr] at hold
            simp at hold
          · rw [List.getElem?_set_ne hrr]
            exact hold
  | caller i =>
    cases hc : s.callers[i]? with
    | none =>
      have hstep : refStep s (SFEvent.caller i) = s := by simp [refStep, hc]
      rw [hstep]; exact h
    | some c =>
      have hilt : i < s.callers.length := (List.getElem?_eq_some_iff.mp hc).1
      cases c with
      | start =>
        cases hpend : s.pending with
        | some r0 =>
          have hstep : refStep s (SFEvent.caller i) =
              ⟨s.callers.set i (RefCaller.waiting r0), some r0, s.requests⟩ := by
            simp [refStep, hc, hpend]
          rw [hstep]
          refine ⟨?_, ?_, ?_, ?_, ?_⟩
          · intro r' hr'
            exact hpend ▸ h.inflightPending r' hr'
          · intro r' hp'
            exact h.pendingLt r' (hpend.trans hp')
          · intro j r' hw
            by_cases hij : i = j
            · subst hij
              rw [List.getElem?_set_self hilt] at hw
              simp only [Option.some.injEq, RefCaller.waiting.injEq] at hw
              exact hw ▸ h.pendingLt r0 hpend
            · rw [List.getElem?_set_ne hij] at hw
              exact h.waitingLt j r' hw
          · intro j r' v' hd
            by_cases hij : i = j
            · subst hij
              rw [List.getElem?_set_self hilt] at hd
              simp at hd
            · rw [List.getElem?_set_ne hij] at hd
              exact h.doneLt j r' v' hd
          · intro j r' v' hd
            by_cases hij : i = j
            · subst hij
              rw [List.getElem?_set_self hilt] at hd
              simp at hd
            · rw [List.getElem?_set_ne hij] at hd
              exact h.doneSettled j r' v' hd
        | none =>
          have hstep : refStep s (SFEvent.caller i) =
              ⟨s.callers.set i (RefCaller.waiting s.requests.length),
               some s.requests.length, s.requests ++ [none]⟩ := by
            simp [refStep, hc, hpend]
          rw [hstep]
          refine ⟨?_, ?_, ?_, ?_, ?_⟩
          · intro r' hr'
            rcases Nat.lt_or_ge r' s.requests.length with hlt | hge
            · rw [List.getElem?_append_left hlt] at hr'
              cases hpend ▸ h.inflightPending r' hr'
            · have hre : r' = s.requests.length := by
                by_contra hne
                have h1 : (1 : Nat) ≤ r' - s.requests.length := by omega
                rw [List.getElem?_append_right hge,
                  List.getElem?_eq_none (by simpa using h1)] at hr'
                cases hr'
              rw [hre]
          · intro r' hp'
            have hre : r' = s.requests.length := by simpa using hp'.symm
            rw [hre, List.length_append]
            simp only [List.length_cons, List.length_nil]
            omega
          · intro j r' hw
            rw [List.length_append]
            simp only [List.length_cons, List.length_nil]
            by_cases hij : i = j
            · subst hij
              rw [List.getElem?_set_self hilt] at hw
              simp only [Option.some.injEq, RefCaller.waiting.injEq] at hw
              omega
            · rw [List.getElem?_set_ne hij] at hw
              have := h.waitingLt j r' hw
              omega
          · intro j r' v' hd
            rw [List.length_append]
            simp only [List.length_cons, List.length_nil]
            by_cases hij : i = j
            · subst hij
              rw [List.getElem?_set_self hilt] at hd
              simp at hd
            · rw [List.getElem?_set_ne hij] at hd
              have := h.doneLt j r' v' hd
              omega
          · intro j r' v' hd
            by_cases hij : i = j
            · subst hij
              rw [List.getElem?_set_self hilt] at hd
              simp at hd
            · rw [List.getElem?_set_ne hij] at hd
              rw [List.getElem?_append_left (h.doneLt j r' v' hd)]
              exact h.doneSettled j r' v' hd
      | waiting r =>
        cases hreq : s.requests[r]? with
        | none =>
          have hstep : refStep s (SFEvent.caller i) = s := by simp [refStep, hc, hreq]
          rw [hstep]; exact h
        | some entry =>
          cases entry with
          | none =>
            have hstep : refStep s (SFEvent.caller i) = s := by simp [refStep, hc, hreq]
            rw [hstep]; exact h
          | some v =>
            have hstep : refStep s (SFEvent.caller i) =
                ⟨s.callers.set i (RefCaller.done r v), s.pending, s.requests⟩ := by
              simp [refStep, hc, hreq]
            rw [hstep]
            refine ⟨?_, ?_, ?_, ?_, ?_⟩
            · intro r' hr'
              exact h.inflightPending r' hr'
            · intro r' hp'
              exact h.pendingLt r' hp'
            · intro j r' hw
              by_cases hij : i = j
              · subst hij
                rw [List.getElem?_set_self hilt] at hw
                simp at hw
              · rw [List.getElem?_set_ne hij] at hw
                exact h.waitingLt j r' hw
            · intro j r' v' hd
              by_cases hij : i = j
              · subst hij
                rw [List.getElem?_set_self hilt] at hd
                simp only [Option.some.injEq, RefCaller.done.injEq] at hd
                exact hd.1 ▸ h.waitingLt i r hc
              · rw [List.getElem?_set_ne hij] at hd
                exact h.doneLt j r' v' hd
            · intro j r' v' hd
              by_cases hij : i = j
              · subst hij
                rw [List.getElem?_set_self hilt] at hd
                simp only [Option.some.injEq, RefCaller.done.injEq] at hd
                rw [← hd.1, ← hd.2]
                exact hreq
              · rw [List.getElem?_set_ne hij] at hd
                exact h.doneSettled j r' v' hd
      | done r0 v0 =>
        have hstep : refStep s (SFEvent.caller i) = s := by simp [refStep, hc]
        rw [hstep]; exact h

/-- In the initial refresh state every caller is at `start`. -/
theorem refInit_callers {α : Type} {k i : Nat} {c : RefCaller α}
    (h : (refInit α k).callers[i]? = some c) : c = RefCaller.start := by
  simp only [refInit] at h
  rw [List.getElem?_replicate] at h
  by_cases hi : i < k
  · rw [if_pos hi] at h
    injection h with h2
    exact h2.symm
  · rw [if_neg hi] at h
    cases h

/-- The initial refresh state satisfies the invariant. -/
theorem refInvariant_init (α : Type) (k : Nat) : RefInvariant (refInit α k) := by
  refine ⟨?_, ?_, ?_, ?_, ?_⟩
  · intro r hr; cases hr
  · intro r hp; cases hp
  · intro i r hw; cases refInit_callers hw
  · intro i r v hd; cases refInit_callers hd
  · intro i r v hd; cases refInit_callers hd

/-- The refresh invariant holds along every schedule. -/
theorem refInvariant_run {α : Type} {s : RefState α} (h : RefInvariant s)
    (sched : List (SFEvent α)) : RefInvariant (refRun s sched) := by
  induction sched generalizing s with
  | nil => exact h
  | cons ev rest ih => exact ih (refInvariant_step h ev)

/-- C7.  The resolver refreshes exactly when the credential's expiry is
within the 5-minute buffer; a successful refresh returns the exchanged
credentials (new access token, rolled-over refresh token, expiry
`now + expires_in * 1000`), persists them into the credential file while
preserving every unrelated field, and clears the in-memory file cache; and
concurrent refresh calls for the same token hash share a single in-flight
refresh: at most one is in flight, a caller arriving while one is registered
joins it without a new network round-trip, and callers of the same refresh
observe the same result. -/
theorem claim_C7 {α : Type} (credentials : GeminiCredentials) (now : Int)
    (data : RefreshResponse) (env : RefreshEnv) (e : Int) (rt tk : String)
    (k : Nat) (sched : List (SFEvent α)) :
    (tokenNeedsRefresh credentials now = true ↔
      ∃ ex, credentials.expiryDate = some ex ∧ ex < now + TOKEN_REFRESH_BUFFER_MS) ∧
    (credentials.expiryDate = some e → e < now + TOKEN_REFRESH_BUFFER_MS →
      credentials.refreshToken = some rt →
      data.access_token = some tk → tk ≠ "" →
      (getValidCredentials (some credentials) now (some data) env).1 =
        some { accessToken := tk,
               refreshToken := jsOrStr data.refresh_token credentials.refreshToken,
               expiryDate := some (now + data.expires_in * 1000) } ∧
      (getValidCredentials (some credentials) now (some data) env).2.cachedCredentials =
        none ∧
      (∀ kf, kf ≠ "access_token" → kf ≠ "refresh_token" → kf ≠ "expiry_date" →
        kf ≠ "token_type" → kf ≠ "scope" →
        (getValidCredentials (some credentials) now (some data) env).2.file kf =
          env.file kf) ∧
      (getValidCredentials (some credentials) now (some data) env).2.file
        "access_token" = some (JVal.str tk)) ∧
    (∀ (r r' : Nat),
      (refRun (refInit α k) sched).requests[r]? = some (none : Option (Option α)) →
      (refRun (refInit α k) sched).requests[r']? = some (none : Option (Option α)) →
      r = r') ∧
    (∀ (i r : Nat),
      (refRun (refInit α k) sched).callers[i]? = some (RefCaller.start : RefCaller α) →
      (refRun (refInit α k) sched).pending = some r →
      (refStep (refRun (refInit α k) sched) (SFEvent.caller i)).requests =
        (refRun (refInit α k) sched).requests ∧
      (refStep (refRun (refInit α k) sched) (SFEvent.caller i)).callers[i]? =
        some (RefCaller.waiting r)) ∧
    (∀ (i j r : Nat) (v v' : Option α),
      (refRun (refInit α k) sched).callers[i]? = some (RefCaller.done r v) →
      (refRun (refInit α k) sched).callers[j]? = some (RefCaller.done r v') →
      v = v') := by
  have hinv := refInvariant_run (refInvariant_init α k) sched
  refine ⟨?_, ?_, ?_, ?_, ?_⟩
  · constructor
    · intro hn
      cases hexp : credentials.expiryDate with
      | none => rw [tokenNeedsRefresh, hexp] at hn; cases hn
      | some ex =>
        rw [tokenNeedsRefresh, hexp, decide_eq_true_eq] at hn
        exact ⟨ex, rfl, hn⟩
    · rintro ⟨ex, hexp, hlt⟩
      rw [tokenNeedsRefresh, hexp, decide_eq_true_eq]
      exact hlt
  · intro hexp hlt hrt htk htkne
    have hneeds : tokenNeedsRefresh credentials now = true := by
      rw [tokenNeedsRefresh, hexp, decide_eq_true_eq]
      exact hlt
    have hrun : getValidCredentials (some credentials) now (some data) env =
        (some { accessToken := tk,
                refreshToken := jsOrStr data.refresh_token credentials.refreshToken,
                expiryDate := some (now + data.expires_in * 1000) },
         { file := saveCredentialsToFile env.file
             { accessToken := tk,
               refreshToken := jsOrStr data.refresh_token credentials.refreshToken,
               expiryDate := some (now + data.expires_in * 1000) } data,
           cachedCredentials := none }) := by
      simp only [getValidCredentials, refreshTokenSeq, refreshTokenInternal, hneeds,
        hrt, htk, if_true, if_neg htkne]
    refine ⟨by rw [hrun], by rw [hrun], ?_, by rw [hrun]; simp [saveCredentialsToFile]⟩
    intro kf h1 h2 h3 h4 h5
    rw [hrun]
    show saveCredentialsToFile env.file _ data kf = env.file kf
    rw [saveCredentialsToFile]
    rw [if_neg h1, if_neg h2, if_neg h3, if_neg h4, if_neg h5]
  · intro r r' h1 h2
    have := (hinv.inflightPending r h1).symm.trans (hinv.inflightPending r' h2)
    simpa using this
  · intro i r hstart hpend
    have hilt : i < (refRun (refInit α k) sched).callers.length :=
      (List.getElem?_eq_some_iff.mp hstart).1
    have hstep : refStep (refRun (refInit α k) sched) (SFEvent.caller i) =
        ⟨(refRun (refInit α k) sched).callers.set i (RefCaller.waiting r),
         some r, (refRun (refInit α k) sched).requests⟩ := by
      simp [refStep, hstart, hpend]
    rw [hstep]
    exact ⟨rfl, List.getElem?_set_self hilt⟩
  · intro i j r v v' h1 h2
    have := (hinv.doneSettled i r v h1).symm.trans (hinv.doneSettled j r v' h2)
    simpa using this

/-- Witness for C7: a credential expiring in 60 seconds (within the buffer)
is exchanged at `now = 0` for the response's new token; the new credential
is returned, the unrelated field `client_id` of the credential file is
preserved, and the in-memory credential cache is cleared. -/
theorem claim_C7_witness :
    (getValidCredentials
        (some ⟨"old", some "refr", some 60000⟩) 0
        (some ⟨some "new", some "refr2", 3600, none, none⟩)
        ⟨fun kf => if kf = "client_id" then some (JVal.str "cid") else none, none⟩).1 =
      some { accessToken := "new",
             refreshToken := jsOrStr (some "refr2") (some "refr"),
             expiryDate := some 3600000 } ∧
    (getValidCredentials
        (some ⟨"old", some "refr", some 60000⟩) 0
        (some ⟨some "new", some "refr2", 3600, none, none⟩)
        ⟨fun kf => if kf = "client_id" then some (JVal.str "cid") else none, none⟩).2.file
      "client_id" = some (JVal.str "cid") ∧
    (getValidCredentials
        (some ⟨"old", some "refr", some 60000⟩) 0
        (some ⟨some "new", some "refr2", 3600, none, none⟩)
        ⟨fun kf => if kf = "client_id" then some (JVal.str "cid") else none, none⟩).2.cachedCredentials = none := by
  have h := (claim_C7 (α := Nat) ⟨"old", some "refr", some 60000⟩ 0
      ⟨some "new", some "refr2", 3600, none, none⟩
      ⟨fun kf => if kf = "client_id" then some (JVal.str "cid") else none, none⟩
      60000 "refr" "new" 0 []).2.1
    rfl (by norm_num [TOKEN_REFRESH_BUFFER_MS]) rfl rfl (by decide)
  refine ⟨?_, ?_, h.2.1⟩
  · rw [h.1]
    decide
  · have hcid := h.2.2.1 "client_id" (by decide) (by decide) (by decide) (by decide)
      (by decide)
    rw [hcid]
    simp

end ClaudeDashboard
